import Mathlib

/-!
# PolyJIT (polli): region classification, extraction, instrumentation and variant cache

A shallow embedding of

* `lib/PolyJIT/JitScopDetection.cpp` (`eraseAllChildren`, `isValidRec`,
  `JitScopDetection::isInvalidRegion`, `JitScopDetection::runOnFunction`,
  `JitScopDetection::print`),
* `lib/PolyJIT/FunctionDispatcher.cpp` (`VariantFunction::getOrCreateVariant`,
  `getRuntimeParameters`, `SpecializeEndpoint::getArgument` and `Apply`),
* `include/polli/Caching.h` (`CacheKey`),
* `lib/ScopMapper.cpp` (`ScopMapper::runOnFunction`),
* `lib/PolyJIT.cpp` (`PolyJIT::instrumentScops`, `PolyJIT::Get`, `pjit_callback`),
* `test/Run/1-struct-param.c` (the function `test`),

followed by the properties proved about them.

Conventions.  An object that the C++ code handles through a pointer is
identified by its address, a natural number.  A `const Region *` that the code
dereferences is modelled by the region node it points to; pointer comparison is
comparison of the `id` fields.  Mutable members become fields of a state record
that every operation takes and returns.
-/

namespace polli

/-! ## Associative containers -/

/-- A `std::map`: the entries, at most one per key. -/
abbrev StdMap (κ ν : Type) := List (κ × ν)

/-- `M.find(K)`: the mapped value, `none` when `K` has no entry. -/
def StdMap.find {κ ν : Type} [DecidableEq κ] : StdMap κ ν → κ → Option ν
  | [], _ => none
  | e :: rest, K => if e.1 = K then some e.2 else StdMap.find rest K

/-- `M.count(K)`, as a truth value. -/
def StdMap.count {κ ν : Type} [DecidableEq κ] (M : StdMap κ ν) (K : κ) : Bool :=
  (StdMap.find M K).isSome

/-- The value `M[K]` refers to: the mapped value, or the value-initialised one
a missing entry is created with. -/
def StdMap.get {κ ν : Type} [DecidableEq κ] [Inhabited ν] (M : StdMap κ ν) (K : κ) : ν :=
  (StdMap.find M K).getD default

/-- Assignment through `M[K]`: replace the entry of `K`, or add one. -/
def StdMap.set {κ ν : Type} [DecidableEq κ] : StdMap κ ν → κ → ν → StdMap κ ν
  | [], K, V => [(K, V)]
  | e :: rest, K, V => if e.1 = K then (K, V) :: rest else e :: StdMap.set rest K V

/-! ## Regions and region sets -/

/-- Address of an `llvm::Region`. -/
abbrev RegionPtr := Nat

/-- An `llvm::Region`: its address and its sub-regions, in iteration order
(`for (auto &SubRegion : R)`). -/
inductive Region where
  | mk (id : RegionPtr) (subs : List Region)

/-- Address of the region. -/
def Region.id : Region → RegionPtr
  | .mk i _ => i

/-- A `polly::ScopSet`, that is a `SetVector<const Region *>`: the elements in
insertion order, each at most once. -/
abbrev ScopSet := List RegionPtr

/-- `Regs.count(R)`, as a truth value. -/
def ScopSet.count (Regs : ScopSet) (R : RegionPtr) : Bool :=
  decide (R ∈ Regs)

/-- `Regs.remove(R)`. -/
def ScopSet.remove (Regs : ScopSet) (R : RegionPtr) : ScopSet :=
  List.erase Regs R

/-- `Regs.insert(R)`: appended at the end unless already present. -/
def ScopSet.insert (Regs : ScopSet) (R : RegionPtr) : ScopSet :=
  if ScopSet.count Regs R then Regs else Regs ++ [R]

/-- `Regs.insert(first, last)`: insert every element of a range. -/
def ScopSet.insertRange (Regs : ScopSet) (Rs : List RegionPtr) : ScopSet :=
  Rs.foldl ScopSet.insert Regs

mutual
/-- All regions strictly nested inside a region (direct and indirect
children), in pre-order. -/
def Region.subregions : Region → List Region
  | .mk _ subs => subregionsOfList subs
/-- The regions of a list of siblings together with everything nested in them. -/
def subregionsOfList : List Region → List Region
  | [] => []
  | S :: rest => S :: (Region.subregions S ++ subregionsOfList rest)
end

/-- Addresses of all regions strictly nested inside a region. -/
def Region.descendants (R : Region) : List RegionPtr :=
  (Region.subregions R).map Region.id

/-- The region itself and everything nested inside it. -/
def Region.allRegions (R : Region) : List Region :=
  R :: Region.subregions R

/-- In the region tree `Top`, the region at address `a` is a proper ancestor of
the region at address `b`. -/
def isAncestor (Top : Region) (a b : RegionPtr) : Prop :=
  ∃ A ∈ Region.allRegions Top, Region.id A = a ∧ b ∈ Region.descendants A

instance (Top : Region) (a b : RegionPtr) : Decidable (isAncestor Top a b) := by
  unfold isAncestor; infer_instance

/-- No two elements of the set are nested in one another. -/
def isAntichain (Top : Region) (Regs : ScopSet) : Prop :=
  ∀ a ∈ Regs, ∀ b ∈ Regs, ¬ isAncestor Top a b

instance (Top : Region) (Regs : ScopSet) : Decidable (isAntichain Top Regs) := by
  unfold isAntichain; infer_instance

mutual
/-- `eraseAllChildren(Regs, R)` of JitScopDetection.cpp: the number of regions
erased, and `Regs` afterwards. -/
def eraseAllChildren (Regs : ScopSet) : Region → Nat × ScopSet
  | .mk _ subs => eraseAllChildrenLoop Regs 0 subs
/-- The `for (auto &SubRegion : R)` loop of `eraseAllChildren`, entered with
the current `Regs` and `Count` and the sub-regions still to visit. -/
def eraseAllChildrenLoop (Regs : ScopSet) (Count : Nat) : List Region → Nat × ScopSet
  | [] => (Count, Regs)
  | SubRegion :: rest =>
    if ScopSet.count Regs (Region.id SubRegion) then
      eraseAllChildrenLoop (ScopSet.remove Regs (Region.id SubRegion)) (Count + 1) rest
    else
      let r := eraseAllChildren Regs SubRegion
      eraseAllChildrenLoop r.2 (Count + r.1) rest
end

/-! ## Rejection reasons and fixability checkers -/

/-- A symbolic expression (`const llvm::SCEV *`), identified by its address. -/
abbrev SCEV := Nat

/-- `polli::ParamList`, a `std::vector<const llvm::SCEV *>`. -/
abbrev ParamList := List SCEV

/-- The kinds of `polly::RejectReason` the classifier distinguishes. -/
inductive RejectReasonKind where
  | NonAffineAccess
  | NonAffBranch
  | LoopBound
  | Alias
  | Other
  deriving DecidableEq

/-- A `polly::RejectReason` as the checkers see it: its kind, the outcome `Fix`
of analysing its offending expressions (`none` when the reason cannot be fixed
at run time, otherwise the expressions that must become run-time constants),
and its message. -/
structure RejectReason where
  Kind : RejectReasonKind
  Fix : Option ParamList
  Message : String

/-- `polly::RejectLog`: the reasons recorded for one region, in order. -/
abbrev RejectLog := List RejectReason

/-- `polli::NonAffineChecker` (ScopDetectionCheckers.h), the common base of
`NonAffineAccessChecker`, `NonAffineBranchChecker` and
`NonAffineLoopBoundChecker`. -/
structure NonAffineChecker where
  Params : ParamList
  R : RegionPtr

/-- `NonAffineChecker::params()`. -/
def NonAffineChecker.params (Chk : NonAffineChecker) : ParamList :=
  Chk.Params

/-- Modelled from the spec: `NonAffineChecker::append`, declared in
ScopDetectionCheckers.h and not defined in the sources.  The
parameters of a region are "concatenated across all reasons". -/
def NonAffineChecker.append (Chk : NonAffineChecker) (L : ParamList) : NonAffineChecker :=
  { Chk with Params := Chk.Params ++ L }

/-- Modelled from the spec: the `isValid` overloads for the three non-affine
checkers, declared in ScopDetectionCheckers.h and not defined in the sources.
"A reason is fixable if its dedicated checker accepts it and supplies
the symbolic expressions that must become runtime constants": the checker for
kind `K` accepts a reason of kind `K` that can be fixed and appends the
supplied expressions to its own list; it rejects every other reason and leaves
its list alone. -/
def isValidNonAffine (K : RejectReasonKind) (Chk : NonAffineChecker) (Reason : RejectReason) :
    Bool × NonAffineChecker :=
  if Reason.Kind = K then
    match Reason.Fix with
    | some L => (true, NonAffineChecker.append Chk L)
    | none => (false, Chk)
  else (false, Chk)

/-- Modelled from the spec: `isValid(AliasingChecker &, RejectReason &)`,
declared in ScopDetectionCheckers.h and not defined in the sources.
`AliasingChecker` is an empty class: it accepts a fixable aliasing reason and
records nothing. -/
def isValidAliasing (Reason : RejectReason) : Bool :=
  decide (Reason.Kind = RejectReasonKind.Alias) && Reason.Fix.isSome

/-- The three stateful checkers `runOnFunction` constructs for one region. -/
structure Checkers where
  NonAffAccessChk : NonAffineChecker
  NonAffBranchChk : NonAffineChecker
  LoopBoundChk : NonAffineChecker

/-- Lines 209-211 of JitScopDetection.cpp: fresh checkers for region `R`. -/
def Checkers.init (R : RegionPtr) : Checkers :=
  { NonAffAccessChk := { Params := [], R := R }
    NonAffBranchChk := { Params := [], R := R }
    LoopBoundChk := { Params := [], R := R } }

/-- One iteration of `for (auto &Reason : Log)` (lines 217-225): all four
checkers are consulted, `IsFixable` is the disjunction of their answers and is
folded into `RegionIsValid` with `&=`. -/
def checkReason (st : Bool × Checkers) (Reason : RejectReason) : Bool × Checkers :=
  let RegionIsValid := st.1
  let a := isValidNonAffine RejectReasonKind.NonAffineAccess st.2.NonAffAccessChk Reason
  let b := isValidNonAffine RejectReasonKind.NonAffBranch st.2.NonAffBranchChk Reason
  let c := isValidNonAffine RejectReasonKind.LoopBound st.2.LoopBoundChk Reason
  let d := isValidAliasing Reason
  let IsFixable := ((false || a.1) || b.1) || c.1 || d
  (RegionIsValid && IsFixable,
    { NonAffAccessChk := a.2, NonAffBranchChk := b.2, LoopBoundChk := c.2 })

/-- Lines 209-225: `RegionIsValid` and the checkers after the whole log of
region `R` has been evaluated. -/
def checkLog (R : RegionPtr) (Log : RejectLog) : Bool × Checkers :=
  Log.foldl checkReason (decide (Log.length > 0), Checkers.init R)

/-! ## The detector -/

/-- A `std::map<const Region *, ParamList>`. -/
abbrev ParamMap := StdMap RegionPtr ParamList

/-- The members of `JitScopDetection` that `runOnFunction` reads or writes,
with the file-level statistic `JitScopsFound`. -/
structure JitScopDetection where
  Enabled : Bool
  JitableScops : ScopSet
  AccumulatedScops : ScopSet
  RequiredParams : ParamMap
  JitScopsFound : Nat

/-- The detector before its first run. -/
def JitScopDetection.empty : JitScopDetection :=
  { Enabled := true, JitableScops := [], AccumulatedScops := [], RequiredParams := [],
    JitScopsFound := 0 }

/-- What `runOnFunction` asks of the `llvm::Function` it is run on. -/
structure Function where
  Name : String
  isDeclaration : Bool
  FnAttributes : List String

/-- `F.hasFnAttribute(Kind)`. -/
def Function.hasFnAttribute (F : Function) (Kind : String) : Bool :=
  decide (Kind ∈ F.FnAttributes)

/-- The analyses `runOnFunction` fetches: the rejection log of `ScopDetection`
in iteration order (`reject_begin() .. reject_end()`, a map keyed by region, so
every region occurs at most once; a key may be null), the regions
`ScopDetection` accepted (`begin() .. end()`), and the top-level region of
`RegionInfo`. -/
structure Analyses where
  Rejects : List (Option Region × RejectLog)
  Scops : List RegionPtr
  TopLevel : Region

mutual
/-- Search the tree for the region at address `R`; on success the addresses of
its ancestors, nearest first. -/
def parentChain (R : RegionPtr) : Region → List RegionPtr → Option (List RegionPtr)
  | .mk i subs, above => if i = R then some above else parentChainList R subs (i :: above)
/-- The same search among a list of siblings whose ancestors are `above`. -/
def parentChainList (R : RegionPtr) : List Region → List RegionPtr → Option (List RegionPtr)
  | [], _ => none
  | S :: rest, above =>
    match parentChain R S above with
    | some path => some path
    | none => parentChainList R rest above
end

/-- `R->getParent()` for the region at address `R` of the tree `Top`: `none`
(a null pointer) for the top-level region and for a region outside the tree. -/
def getParent (Top : Region) (R : RegionPtr) : Option RegionPtr :=
  ((parentChain R Top []).getD []).head?

/-- `isValidRec(CurR, R)`, lines 146-160.  The loop body leaves the loop in its
first iteration on either branch, so only the first child is ever looked at. -/
def isValidRec : Region → RegionPtr → Bool
  | .mk _ [], _ => false
  | .mk _ (Sub :: _), R => if Region.id Sub = R then true else isValidRec Sub R

/-- The loop `while (Parent && !JitableScops.count(Parent)) Parent =
Parent->getParent();` of lines 173-174, run on the chain of ancestors that
starts at `Parent`: the first ancestor in `JitableScops`, or null. -/
def firstJitableParent (JitableScops : ScopSet) : List RegionPtr → Option RegionPtr
  | [] => none
  | Parent :: up =>
    if ScopSet.count JitableScops Parent then some Parent else firstJitableParent JitableScops up

/-- `JitScopDetection::isInvalidRegion(F, R)`, lines 162-177.  The value the
`while` loop leaves in `Parent` is not used by the `return` that follows. -/
def isInvalidRegion (TopLevel : Region) (JitableScops : ScopSet) (R : RegionPtr) : Bool :=
  match getParent TopLevel R with
  | none => true
  | some _ =>
    let _Parent := firstJitableParent JitableScops ((parentChain R TopLevel []).getD [])
    !isValidRec TopLevel R

/-- The body of the loop over the rejection log, lines 202-257, for one entry.
The block structure is the one the braces give: the brace of line 254 closes
the `if (RegionIsValid)` of line 227 and the brace of line 257 closes the loop
of line 201.  So lines 255-256 (`JitableScops.insert(R); ++JitScopsFound;`)
follow the `if` instead of ending it, and run for every non-null region that
does not leave through the `continue` of line 250, whatever `RegionIsValid`
is. -/
def processReject (TopLevel : Region) (S : JitScopDetection)
    (Rej : Option Region × RejectLog) : JitScopDetection :=
  match Rej.1 with
  | none => S
  | some R =>
    let Log := Rej.2
    let chk := checkLog (Region.id R) Log
    let RegionIsValid := chk.1
    if RegionIsValid then
      let L := StdMap.get S.RequiredParams (Region.id R)
      let L := L ++ NonAffineChecker.params chk.2.NonAffAccessChk
      let L := L ++ NonAffineChecker.params chk.2.NonAffBranchChk
      let L := L ++ NonAffineChecker.params chk.2.LoopBoundChk
      let S1 := { S with RequiredParams := StdMap.set S.RequiredParams (Region.id R) L }
      let deleted := eraseAllChildren S1.JitableScops R
      let S2 := { S1 with JitableScops := deleted.2 }
      if isInvalidRegion TopLevel S2.JitableScops (Region.id R) then
        S2
      else
        { S2 with JitableScops := ScopSet.insert S2.JitableScops (Region.id R)
                  JitScopsFound := S2.JitScopsFound + 1 }
    else
      { S with JitableScops := ScopSet.insert S.JitableScops (Region.id R)
               JitScopsFound := S.JitScopsFound + 1 }

/-- `JitScopDetection::runOnFunction(F)`, lines 179-270: the returned flag and
the detector afterwards.  The source has one closing brace too many between
lines 179 and 270: matched in order, the brace of line 258 already closes the
body and the brace of line 270 has no opening partner.  The statements of
lines 260-269 that stand between the two use the `F` and `SD` of the function
and hold its `return false`, and are kept here as its end; they write
`AccumulatedScops` only, after the loop has finished. -/
def runOnFunction (S : JitScopDetection) (F : Function) (A : Analyses) :
    Bool × JitScopDetection :=
  if !S.Enabled then (false, S)
  else if F.isDeclaration then (false, S)
  else if Function.hasFnAttribute F "polyjit-jit-candidate" then (false, S)
  else
    let S1 := A.Rejects.foldl (processReject A.TopLevel) S
    let S2 := { S1 with AccumulatedScops := ScopSet.insertRange S1.AccumulatedScops A.Scops }
    let S3 := { S2 with
      AccumulatedScops := ScopSet.insertRange S2.AccumulatedScops S2.JitableScops }
    (false, S3)

/-! ## Vocabulary for the statements about the detector -/

/-- Some fixability checker accepts the reason: one of the four `isValid`
calls of lines 219-222 answers `true`. -/
def checkerAccepts (Reason : RejectReason) : Prop :=
  ∃ Chk : NonAffineChecker,
    (isValidNonAffine RejectReasonKind.NonAffineAccess Chk Reason).1 = true ∨
    (isValidNonAffine RejectReasonKind.NonAffBranch Chk Reason).1 = true ∨
    (isValidNonAffine RejectReasonKind.LoopBound Chk Reason).1 = true ∨
    isValidAliasing Reason = true

/-- The parameters one reason contributes: what the three checkers hold after
evaluating this reason alone. -/
def reasonParams (Reason : RejectReason) : ParamList :=
  let c := (checkReason (true, Checkers.init 0) Reason).2
  NonAffineChecker.params c.NonAffAccessChk ++ NonAffineChecker.params c.NonAffBranchChk ++
    NonAffineChecker.params c.LoopBoundChk

/-- The parameters of the reasons of a log, in the order in which the reasons
are evaluated. -/
def paramsInLogOrder : RejectLog → ParamList
  | [] => []
  | Reason :: rest => reasonParams Reason ++ paramsInLogOrder rest

/-- The reasons of kind `K` of a log, in log order. -/
def reasonsOfKind (K : RejectReasonKind) (Log : RejectLog) : RejectLog :=
  Log.filter (fun Reason => decide (Reason.Kind = K))

/-- What the checker for kind `K` collects over a log: the expressions of the
fixable reasons of kind `K`, in log order. -/
def kindParams (K : RejectReasonKind) : RejectLog → ParamList
  | [] => []
  | Reason :: rest =>
    (if Reason.Kind = K then Reason.Fix.getD [] else []) ++ kindParams K rest

/-- The key of an entry of the rejection log: the address of its region, or
null. -/
def rejectKey (Rej : Option Region × RejectLog) : Option RegionPtr :=
  Rej.1.map Region.id

/-- A function the detector does not skip. -/
def plainFunction : Function :=
  { Name := "test", isDeclaration := false, FnAttributes := [] }

/-- A fixable non-affine-access reason that needs the parameters `L`. -/
def fixableAccess (L : ParamList) : RejectReason :=
  { Kind := RejectReasonKind.NonAffineAccess, Fix := some L,
    Message := "Non affine access function" }

/-- A fixable non-affine-branch reason that needs the parameters `L`. -/
def fixableBranch (L : ParamList) : RejectReason :=
  { Kind := RejectReasonKind.NonAffBranch, Fix := some L,
    Message := "Non affine branch" }

/-- A reason no checker can fix. -/
def unfixable : RejectReason :=
  { Kind := RejectReasonKind.Other, Fix := none, Message := "Unprofitable" }

/-- A region `1` that holds a region `2`. -/
def outerRegion : Region := .mk 1 [.mk 2 []]

/-- The region `2`, without sub-regions. -/
def innerRegion : Region := .mk 2 []

/-- The region tree `0 > 1 > 2`: top-level region `0`, its only child `1`, and
the only child `2` of `1`. -/
def nestedTree : Region := .mk 0 [outerRegion]

/-! ## The variant cache -/

/-- Address of an `llvm::Function`. -/
abbrev FunctionPtr := Nat

/-- `polli::CacheKey` of Caching.h: the address `IR` of the unit and the hash
of the argument values, a `size_t`. -/
structure CacheKey where
  IR : Nat
  ValueHash : Nat
  deriving DecidableEq

/-- `CacheKey::operator==`. -/
def CacheKey.eq (a O : CacheKey) : Bool :=
  decide (a.IR = O.IR) && decide (a.ValueHash = O.ValueHash)

/-- `CacheKey::operator<`. -/
def CacheKey.lt (a O : CacheKey) : Bool :=
  decide (a.IR < O.IR) || (decide (a.IR = O.IR) && decide (a.ValueHash < O.ValueHash))

/-- `std::hash<polli::CacheKey>`: the exclusive or of the address and the
value hash. -/
def CacheKey.hash (K : CacheKey) : Nat :=
  Nat.xor K.IR K.ValueHash

/-- Modelled from the spec: the construction of the key of a dispatch, which is
not part of the sources.  A key is "derived from {identity of the source unit,
hash of the full ordered RuntimeParam vector}"; the hash function is the
parameter `hashValues`. -/
def dispatchKey (hashValues : List Nat → Nat) (IR : Nat) (Values : List Nat) : CacheKey :=
  { IR := IR, ValueHash := hashValues Values }

/-- An example of a value hash: the exclusive or of the values, the way
`std::hash<polli::CacheKey>` combines the fields of a key. -/
def xorValues (Values : List Nat) : Nat :=
  Values.foldl Nat.xor 0

/-- The members of `VariantFunction` that `getOrCreateVariant` uses.  The key
type `κ` stands for `FunctionKey`; keys are compared as the map `Variants`
compares them.  `Created` lists, oldest first, the keys `createVariant` has
been called with: every call builds one new module holding one new function. -/
structure VariantFunction (κ : Type) where
  SourceF : FunctionPtr
  Variants : StdMap κ FunctionPtr
  Created : List κ

/-- A `VariantFunction` for `SourceF` with nothing cached. -/
def VariantFunction.init (κ : Type) (SourceF : FunctionPtr) : VariantFunction κ :=
  { SourceF := SourceF, Variants := [], Created := [] }

/-- `VariantFunction::createVariant(K)`, lines 229-265, as far as the cache is
concerned: it allocates a new module (`new Module`) and returns the function
cloned into it, an object distinct from every variant created before.  The
variants are numbered in the order of their creation. -/
def createVariant {κ : Type} (V : VariantFunction κ) (K : κ) : FunctionPtr × VariantFunction κ :=
  (V.Created.length, { V with Created := V.Created ++ [K] })

/-- `VariantFunction::getOrCreateVariant(K)`, lines 40-54: the function
returned and the object afterwards. -/
def getOrCreateVariant {κ : Type} [DecidableEq κ] (V : VariantFunction κ) (K : κ) :
    FunctionPtr × VariantFunction κ :=
  if StdMap.count V.Variants K then
    (StdMap.get V.Variants K, V)
  else
    let r := createVariant V K
    let Variant := r.1
    (Variant, { r.2 with Variants := StdMap.set r.2.Variants K Variant })

/-- A sequence of `getOrCreateVariant` calls, one per key, oldest first: the
object after the last call. -/
def dispatchAll {κ : Type} [DecidableEq κ] (V : VariantFunction κ) (Ks : List κ) :
    VariantFunction κ :=
  Ks.foldl (fun V K => (getOrCreateVariant V K).2) V

/-! ## Functions, arguments and run-time parameters -/

/-- An `llvm::Type`, as far as the dispatcher tells types apart: an
`IntegerType` of some bit width, or anything else. -/
inductive IRType where
  | Integer (BitWidth : Nat)
  | Pointer
  | FloatingPoint
  deriving DecidableEq

/-- An `llvm::Argument`: a formal with its declared type and name. -/
structure Argument where
  Ty : IRType
  Name : String
  deriving DecidableEq

/-- An `llvm::ConstantInt`: an integer constant of a given bit width. -/
structure ConstantInt where
  BitWidth : Nat
  Value : Nat
  deriving DecidableEq

/-- `ConstantInt::get(IntTy, V)` for a `uint64_t V`: the constant of type
`IntTy` whose value is `V` cut down to the width of the type. -/
def ConstantInt.get (BitWidth : Nat) (V : Nat) : ConstantInt :=
  { BitWidth := BitWidth, Value := V % 2 ^ BitWidth }

/-- `polli::Param`: the type, the name and the constant value (a `Constant *`,
possibly null) of one run-time parameter. -/
structure Param where
  Ty : IRType
  Name : String
  Val : Option ConstantInt
  deriving DecidableEq

/-- An operand of an instruction of the entry block the instrumentor builds:
the formal at a position, one of the values the instrumentor creates (the
`params` array, the stack slot of a formal, its `i8*` cast, the address of its
array element), an `i32` constant, or the address of a global string. -/
inductive Operand where
  | Arg (i : Nat)
  | Params
  | Slot (i : Nat)
  | Slot8 (i : Nat)
  | Dest (i : Nat)
  | ConstInt (n : Nat)
  | GlobalString (s : String)
  deriving DecidableEq

/-- An instruction of an entry block: a PHI node, a landing pad or another
instruction of the original block (told apart by a number), or one of the
instructions the instrumentor creates. -/
inductive Instruction where
  | PHI (id : Nat)
  | LandingPad (id : Nat)
  | Original (id : Nat)
  | Alloca (Result : Operand) (Ty : IRType) (ArraySize : Nat)
  | Store (Val Ptr : Operand) (Align : Nat)
  | BitCast (Result V : Operand)
  | GEP (Result Ptr : Operand) (Idx : Nat)
  | Call (Callee : String) (Args : List Operand)
  deriving DecidableEq

/-- An `llvm::Function` as a member of a module: what the detector asks of it,
its address, its formals in order and the instructions of its entry block. -/
structure ModuleFunction extends Function where
  Addr : FunctionPtr
  Args : List Argument
  Entry : List Instruction

/-- The loop of `getRuntimeParameters`, lines 25-37 of FunctionDispatcher.cpp,
entered with the formals still to visit, the counter `i`, and the vector
`ParamV` together with the list of the slot indices read so far.
`params i` is what `((uint64_t **)params)[i][0]` evaluates to. -/
def getRuntimeParametersLoop (params : Nat → Nat) :
    List Argument → Nat → List Param × List Nat → List Param × List Nat
  | [], _, st => st
  | Arg :: rest, i, st =>
    match Arg.Ty with
    | IRType.Integer BitWidth =>
      let P : Param :=
        { Ty := IRType.Integer BitWidth, Name := Arg.Name,
          Val := some (ConstantInt.get BitWidth (params i % 2 ^ 64)) }
      getRuntimeParametersLoop params rest (i + 1) (st.1 ++ [P], st.2 ++ [i])
    | _ => getRuntimeParametersLoop params rest (i + 1) st

/-- `getRuntimeParameters(F, paramc, params, ParamV)`, lines 22-38: the vector
`ParamV` afterwards, and the indices of the slots read, in order.  The body
does not mention `paramc`. -/
def getRuntimeParameters (F : ModuleFunction) (_paramc : Nat) (params : Nat → Nat)
    (ParamV : List Param) : List Param × List Nat :=
  getRuntimeParametersLoop params F.Args 0 (ParamV, [])

/-- The `Param` that belongs to the formal `Arg` at position `i` when the slot
values are `params`: none for a formal that is not of integer type. -/
def paramOfFormal (params : Nat → Nat) (p : Nat × Argument) : Option Param :=
  match p.2.Ty with
  | IRType.Integer BitWidth =>
    some { Ty := p.2.Ty, Name := p.2.Name,
           Val := some (ConstantInt.get BitWidth (params p.1 % 2 ^ 64)) }
  | _ => none

/-- The position of a formal of integer type, none for any other formal. -/
def integerPosition (p : Nat × Argument) : Option Nat :=
  match p.2.Ty with
  | IRType.Integer _ => some p.1
  | _ => none

/-- A unit `test(i32 %n)` with an empty entry block, at address 40. -/
def unitTest : ModuleFunction :=
  { Name := "test", isDeclaration := false, FnAttributes := [], Addr := 40,
    Args := [{ Ty := IRType.Integer 32, Name := "n" }], Entry := [] }

/-- A unit `mixed(i32 %n, double %x, i64 %m)` at address 41. -/
def unitMixed : ModuleFunction :=
  { Name := "mixed", isDeclaration := false, FnAttributes := [], Addr := 41,
    Args := [{ Ty := IRType.Integer 32, Name := "n" },
             { Ty := IRType.FloatingPoint, Name := "x" },
             { Ty := IRType.Integer 64, Name := "m" }],
    Entry := [] }

/-- Slot values: slot `i` holds `10 + i`. -/
def slotsFrom10 (i : Nat) : Nat := 10 + i

/-! ## Specialization of a variant -/

/-- A value used in the body of a variant: the `polyjit.param.idx` load that
stands for the source formal at a position, a constant, or any other value. -/
inductive Value where
  | Load (i : Nat)
  | Constant (C : ConstantInt)
  | Instruction (id : Nat)
  deriving DecidableEq

/-- `isa<Constant>(V)`. -/
def Value.isConstant : Value → Bool
  | Value.Constant _ => true
  | _ => false

/-- A `ValueToValueMapTy` on the formals of the source function, by position:
none where the map holds no value (a null pointer). -/
abbrev ValueToValueMap := Nat → Option Value

/-- The map `MainCreator::CreateUnpackParamsO2` leaves behind, lines 88-97 of
FunctionDispatcher.cpp: `VMap[&Arg] = LoadArr` for every formal of the source
function. -/
def CreateUnpackParamsO2 (SrcF : ModuleFunction) : ValueToValueMap :=
  fun i => if i < SrcF.Args.length then some (Value.Load i) else none

/-- The loop of `SpecializeEndpoint::getArgument`, lines 157-158, on the
formals from the iterator onwards: how far the iterator moves. -/
def getArgumentFrom : List Argument → String → Nat
  | [], _ => 0
  | Arg :: rest, ArgName =>
    if Arg.Name ≠ ArgName then 1 + getArgumentFrom rest ArgName else 0

/-- `SpecializeEndpoint::getArgument(F, ArgName)`, lines 153-161: the position
of the first formal named `ArgName`; the number of formals stands for
`F->arg_end()`. -/
def getArgument (F : ModuleFunction) (ArgName : String) : Nat :=
  getArgumentFrom F.Args ArgName

/-- `NewArg->replaceAllUsesWith(Replacement)` on the uses in a body. -/
def replaceAllUsesWith (Body : List Value) (NewArg Replacement : Value) : List Value :=
  Body.map (fun V => if V = NewArg then Replacement else V)

/-- The loop of `SpecializeEndpoint::Apply`, lines 199-214, over the values
still to apply, on the uses `Body` in the variant; none when the loop
dereferences the end iterator or a null value.  The iterator `Arg` runs over
the formals of `From`; it equals `To->arg_end()` only if `From` and `To` are
the same function and `Arg` is at the end. -/
def ApplyLoop (From To : ModuleFunction) (VMap : ValueToValueMap) :
    List Param → List Value → Option (List Value)
  | [], Body => some Body
  | P :: rest, Body =>
    let Arg := getArgument From P.Name
    if From.Addr = To.Addr ∧ Arg = To.Args.length then
      ApplyLoop From To VMap rest Body
    else
      match P.Val with
      | none => ApplyLoop From To VMap rest Body
      | some Replacement =>
        if Arg < From.Args.length then
          match VMap Arg with
          | none => none
          | some NewArg =>
            if Value.isConstant NewArg then ApplyLoop From To VMap rest Body
            else
              ApplyLoop From To VMap rest
                (replaceAllUsesWith Body NewArg (Value.Constant Replacement))
        else none

/-- `SpecializeEndpoint::Apply(From, To, VMap)`, lines 188-215, with the
member `SpecValues`: the uses in the body of the variant afterwards.  The
branch from the entry block of `To` to the cloned entry block uses no formal
and is left out. -/
def Apply (SpecValues : List Param) (From To : ModuleFunction) (VMap : ValueToValueMap)
    (Body : List Value) : Option (List Value) :=
  ApplyLoop From To VMap SpecValues Body

/-- What a use in the variant becomes when every formal of integer type is
specialized to the constant read from its slot. -/
def specializeUse (From : ModuleFunction) (params : Nat → Nat) : Value → Value
  | Value.Load i =>
    match From.Args.get? i with
    | some Arg =>
      match Arg.Ty with
      | IRType.Integer BitWidth => Value.Constant (ConstantInt.get BitWidth (params i % 2 ^ 64))
      | _ => Value.Load i
    | none => Value.Load i
  | V => V

/-- The use `specializeUse` makes of the formals from position `k` on. -/
def specializeUseFrom (From : ModuleFunction) (params : Nat → Nat) (k : Nat) : Value → Value
  | Value.Load i => if k ≤ i then specializeUse From params (Value.Load i) else Value.Load i
  | V => V

/-- A unit `pair(i32, i32)` whose two formals have no name, at address 42. -/
def unitUnnamed : ModuleFunction :=
  { Name := "pair", isDeclaration := false, FnAttributes := [], Addr := 42,
    Args := [{ Ty := IRType.Integer 32, Name := "" }, { Ty := IRType.Integer 32, Name := "" }],
    Entry := [] }

/-- The function a variant is built into: `(i32 %argc, i8** %argv)`, at
address 90. -/
def variantTarget : ModuleFunction :=
  { Name := "pair", isDeclaration := false, FnAttributes := [], Addr := 90,
    Args := [{ Ty := IRType.Integer 32, Name := "argc" }, { Ty := IRType.Pointer, Name := "argv" }],
    Entry := [] }

/-! ## The region extractor `ScopMapper` -/

/-- What LLVM's `CodeExtractor` does for one region, an input of the model:
`isEligible()` is false; or it is true and `extractCodeRegion()` returns null;
or it returns a newly created function, which has the name `Name`. -/
inductive Extraction where
  | NotEligible
  | Failed
  | Extracted (ExtractedF : FunctionPtr) (Name : String)

/-- The member `CreatedFunctions` of `ScopMapper`, a set of functions, with
the effects of a run on the extracted functions, each oldest first: the calls
`ExtractedF->setName(S)` of line 72, as the function and the string `S` that
is passed, the functions given external linkage and the functions handed to
`NSD->ignoreFunction`.  `SetNameCalls` holds what the mapper asks for, not the
name a function carries afterwards: that is decided by the symbol table of the
module (LLVM, not among the sources), which changes a name that is in use. -/
structure ScopMapper where
  CreatedFunctions : List FunctionPtr
  SetNameCalls : List (FunctionPtr × String)
  ExternalLinkage : List FunctionPtr
  Ignored : List FunctionPtr

/-- A `ScopMapper` that has not run yet. -/
def ScopMapper.init : ScopMapper :=
  { CreatedFunctions := [], SetNameCalls := [], ExternalLinkage := [], Ignored := [] }

/-- `CreatedFunctions.insert(F)` on a set. -/
def insertFunction (Fs : List FunctionPtr) (F : FunctionPtr) : List FunctionPtr :=
  if F ∈ Fs then Fs else Fs ++ [F]

/-- The loop of `ScopMapper::runOnFunction`, lines 53-81 of ScopMapper.cpp,
over the jitable regions still to visit, each with what the extractor does for
it, entered with the counter `i`. -/
def ScopMapper.extractLoop : List (RegionPtr × Extraction) → Nat → ScopMapper → ScopMapper
  | [], _, SM => SM
  | (_, Extraction.NotEligible) :: rest, i, SM => ScopMapper.extractLoop rest i SM
  | (_, Extraction.Failed) :: rest, i, SM => ScopMapper.extractLoop rest i SM
  | (_, Extraction.Extracted ExtractedF Name) :: rest, i, SM =>
    ScopMapper.extractLoop rest (i + 1)
      { CreatedFunctions := insertFunction SM.CreatedFunctions ExtractedF
        SetNameCalls := SM.SetNameCalls ++ [(ExtractedF, Name ++ ".scop" ++ toString i)]
        ExternalLinkage := SM.ExternalLinkage ++ [ExtractedF]
        Ignored := SM.Ignored ++ [ExtractedF] }

/-- `ScopMapper::runOnFunction(F)`, lines 43-84, on the function at address
`F` with the jitable regions `jit_begin() .. jit_end()` of the detector: the
returned flag and the mapper afterwards. -/
def ScopMapper.runOnFunction (SM : ScopMapper) (F : FunctionPtr)
    (Jit : List (RegionPtr × Extraction)) : Bool × ScopMapper :=
  if F ∈ SM.CreatedFunctions then (false, SM)
  else (true, ScopMapper.extractLoop Jit 0 SM)

/-- The units a run extracts: the function and its name as the extractor
provides it, for every region whose extraction succeeded, in order. -/
def extractedUnits : List (RegionPtr × Extraction) → List (FunctionPtr × String)
  | [] => []
  | (_, Extraction.Extracted ExtractedF Name) :: rest => (ExtractedF, Name) :: extractedUnits rest
  | _ :: rest => extractedUnits rest

/-- The names a run builds on line 72 for the units it extracts, when the
counter starts at `i`: the name from the extractor, `.scop`, and the ordinal of
the unit among the extracted ones. -/
def scopNames : List (FunctionPtr × String) → Nat → List (FunctionPtr × String)
  | [], _ => []
  | (F, Name) :: rest, i => (F, Name ++ ".scop" ++ toString i) :: scopNames rest (i + 1)

/-- The value of a decimal digit. -/
def digitValue (c : Char) : Nat := c.toNat - 48

/-- The number a list of decimal digits denotes. -/
def decimalValue (l : List Char) : Nat :=
  l.foldl (fun a c => 10 * a + digitValue c) 0

/-- The number the trailing decimal digits of a name denote. -/
def ordinalSuffix (Name : String) : Nat :=
  decimalValue ((Name.data.reverse.takeWhile Char.isDigit).reverse)

/-! ## The entry instrumentor -/

/-- An `llvm::Module`: its functions, in order. -/
abbrev Module := List ModuleFunction

/-- The name `cbName` of the callback, line 200 of PolyJIT.cpp. -/
def cbName : String := "polli.enter.runtime"

/-- `ScopM->getOrInsertFunction(cbName, void, i8*, i32, i8**)`, lines 206-211:
the module with a declaration of the callback, added at the address `NewAddr`
if the module has no function of that name. -/
def getOrInsertCallback (ScopM : Module) (NewAddr : FunctionPtr) : Module :=
  if ScopM.any (fun F => decide (F.Name = cbName)) then ScopM
  else
    ScopM ++ [{ Name := cbName, isDeclaration := true, FnAttributes := [], Addr := NewAddr,
                Args := [{ Ty := IRType.Pointer, Name := "" },
                         { Ty := IRType.Integer 32, Name := "" },
                         { Ty := IRType.Pointer, Name := "" }],
                Entry := [] }]

/-- `BB->getFirstInsertionPt()`: the position after the leading PHI nodes and
after a landing pad that follows them. -/
def firstInsertionPt : List Instruction → Nat
  | Instruction.PHI _ :: rest => 1 + firstInsertionPt rest
  | Instruction.LandingPad _ :: _ => 1
  | _ => 0

/-- The loop of lines 246-265 over the formals still to visit, entered with
the counter `i`: the instructions the builder creates, in order. -/
def storeParams : List Argument → Nat → List Instruction
  | [], _ => []
  | Arg :: rest, i =>
    [Instruction.Alloca (Operand.Slot i) Arg.Ty 1,
     Instruction.Store (Operand.Arg i) (Operand.Slot i) 4,
     Instruction.BitCast (Operand.Slot8 i) (Operand.Slot i),
     Instruction.GEP (Operand.Dest i) Operand.Params (i % 2 ^ 32),
     Instruction.Store (Operand.Slot8 i) (Operand.Dest i) 8] ++ storeParams rest (i + 1)

/-- The instructions lines 238-271 create for the function `F`: the `params`
array of `argc` elements, the stores of the loop, and the call of the
callback.  `argc` and the indices are `i32` constants. -/
def instrumentation (F : ModuleFunction) : List Instruction :=
  [Instruction.Alloca Operand.Params IRType.Pointer (F.Args.length % 2 ^ 32)] ++
    storeParams F.Args 0 ++
    [Instruction.Call cbName
      [Operand.GlobalString F.Name, Operand.ConstInt (F.Args.length % 2 ^ 32), Operand.Params]]

/-- The body of the loop over the functions of a module, lines 220-271: a
declaration is passed over, a definition gets the instructions inserted at the
first insertion point of its entry block. -/
def instrumentFunction (F : ModuleFunction) : ModuleFunction :=
  if F.isDeclaration then F
  else
    { F with Entry := F.Entry.take (firstInsertionPt F.Entry) ++ instrumentation F ++
                      F.Entry.drop (firstInsertionPt F.Entry) }

/-- The body of the loop over the extracted modules, lines 205-272. -/
def instrumentModule (ScopM : Module) (NewAddr : FunctionPtr) : Module :=
  (getOrInsertCallback ScopM NewAddr).map instrumentFunction

/-- `PolyJIT::instrumentScops(M, Mods)`, lines 193-274: the extracted modules
afterwards.  `NewAddr k` is the address a callback declaration gets when it
has to be created in the module at position `k`. -/
def instrumentScops (Mods : List Module) (NewAddr : Nat → FunctionPtr) : List Module :=
  Mods.enum.map (fun p => instrumentModule p.2 (NewAddr p.1))

/-- A run-time value: an integer, an address, a string, or nothing defined. -/
inductive Word where
  | Int (n : Nat)
  | Ptr (a : Nat)
  | Str (s : String)
  | Undef
  deriving DecidableEq

/-- The state in which the instructions of the instrumentor execute: the
values of the operands computed so far, the memory, the next free stack cell,
and the calls made, oldest first. -/
structure Machine where
  Regs : Operand → Word
  Mem : Nat → Word
  SP : Nat
  Calls : List (String × List Word)

/-- The value of an operand, the formals having the values `ArgValues`. -/
def evalOperand (ArgValues : Nat → Word) (m : Machine) : Operand → Word
  | Operand.Arg i => ArgValues i
  | Operand.ConstInt n => Word.Int n
  | Operand.GlobalString s => Word.Str s
  | r => m.Regs r

/-- The effect of one instruction: `alloca` takes the next free cells, `store`
writes a cell, `bitcast` and `getelementptr` compute an address, `call`
records the callee and the values passed.  Instructions of the original block
are not interpreted. -/
def execInstruction (ArgValues : Nat → Word) (m : Machine) : Instruction → Machine
  | Instruction.Alloca Result _ ArraySize =>
    { m with Regs := Function.update m.Regs Result (Word.Ptr m.SP), SP := m.SP + ArraySize }
  | Instruction.Store Val Ptr _ =>
    match evalOperand ArgValues m Ptr with
    | Word.Ptr a => { m with Mem := Function.update m.Mem a (evalOperand ArgValues m Val) }
    | _ => m
  | Instruction.BitCast Result V =>
    { m with Regs := Function.update m.Regs Result (evalOperand ArgValues m V) }
  | Instruction.GEP Result Ptr Idx =>
    match evalOperand ArgValues m Ptr with
    | Word.Ptr a => { m with Regs := Function.update m.Regs Result (Word.Ptr (a + Idx)) }
    | _ => m
  | Instruction.Call Callee Args =>
    { m with Calls := m.Calls ++ [(Callee, Args.map (evalOperand ArgValues m))] }
  | _ => m

/-- The effect of a sequence of instructions. -/
def execInstructions (ArgValues : Nat → Word) (m : Machine) (Is : List Instruction) : Machine :=
  Is.foldl (execInstruction ArgValues) m

/-- A machine with nothing computed, empty memory and the stack at cell `100`. -/
def freshMachine : Machine :=
  { Regs := fun _ => Word.Undef, Mem := fun _ => Word.Undef, SP := 100, Calls := [] }

/-- A unit `mixed(i32 %n, double %x, i64 %m)` whose entry block has two
original instructions. -/
def unitWithBody : ModuleFunction :=
  { unitMixed with Entry := [Instruction.Original 0, Instruction.Original 1] }

/-! ## The program image and the dispatch callback -/

/-- Address of an `llvm::Module`; `0` is the null pointer. -/
abbrev ModulePtr := Nat

/-- Address of an `llvm::ExecutionEngine`; `0` is the null pointer. -/
abbrev EnginePtr := Nat

/-- A `PolyJIT` object: the engine and the module it was constructed with. -/
structure PolyJIT where
  EE : EnginePtr
  M : ModulePtr
  deriving DecidableEq

/-- The static member `PolyJIT::Instance` (none is `NULL`) and the objects
`new PolyJIT(EE, M)` has constructed, oldest first; an object is addressed by
its position in `Objects`. -/
structure PolyJITStatics where
  Instance : Option Nat
  Objects : List PolyJIT
  deriving DecidableEq

/-- The statics at program start: `PolyJIT::Instance = NULL`, line 413 of
PolyJIT.cpp. -/
def PolyJITStatics.init : PolyJITStatics :=
  { Instance := none, Objects := [] }

/-- `PolyJIT::Get(EE, M)`, lines 414-419: the pointer returned and the statics
afterwards. -/
def PolyJIT.Get (S : PolyJITStatics) (EE : EnginePtr) (M : ModulePtr) : Nat × PolyJITStatics :=
  match S.Instance with
  | none =>
    let New := S.Objects.length
    (New, { Instance := some New, Objects := S.Objects ++ [{ EE := EE, M := M }] })
  | some Instance => (Instance, S)

/-- A sequence of `PolyJIT::Get` calls, oldest first: the pointers returned,
in order, and the statics after the last call. -/
def PolyJIT.GetAll (S : PolyJITStatics) :
    List (EnginePtr × ModulePtr) → List Nat × PolyJITStatics
  | [] => ([], S)
  | (EE, M) :: rest =>
    let r := PolyJIT.Get S EE M
    let rs := PolyJIT.GetAll r.2 rest
    (r.1 :: rs.1, rs.2)

/-- The `FunctionDispatcher` behind `Disp`: for every unit, by address, its
`VariantFunction`; the key of a variant is the vector of run-time parameters. -/
abbrev FunctionDispatcher := StdMap FunctionPtr (VariantFunction (List Param))

/-- Modelled from the spec: `FunctionDispatcher::getFunctionForValues(F,
PArr)`, which is not defined in the sources.  The dispatcher, "given a
callback invocation (unit identity + concrete argument values), produces a
cache key, looks up a previously compiled, value-specialized variant, and on
miss creates one": the `VariantFunction` of the unit, created on first use, is
asked for the variant of the key `PArr`. -/
def getFunctionForValues (Disp : FunctionDispatcher) (F : ModuleFunction) (PArr : List Param) :
    FunctionPtr × FunctionDispatcher :=
  let VF := (StdMap.find Disp F.Addr).getD (VariantFunction.init (List Param) F.Addr)
  let r := getOrCreateVariant VF PArr
  (r.1, StdMap.set Disp F.Addr r.2)

/-- `M.getFunction(fName)`: the first function of the module with that name,
none (a null pointer) if there is none. -/
def Module.getFunction (M : Module) (fName : String) : Option ModuleFunction :=
  List.find? (fun F => decide (F.Name = fName)) M

/-- How a call of `pjit_callback` ends: it dispatches to a variant; or it
reaches `llvm_unreachable` because the module has no function of the name; or
the `PolyJIT` instance has no module to look the name up in. -/
inductive CallbackOutcome where
  | Dispatched (NewF : FunctionPtr)
  | Unreachable
  | NoModule
  deriving DecidableEq

/-- What a call of `pjit_callback` leaves behind: how it ended, the statics of
`PolyJIT`, the dispatcher `Disp`, and the indices of the parameter slots it
read, in order. -/
structure CallbackResult where
  Outcome : CallbackOutcome
  JIT : PolyJITStatics
  Disp : FunctionDispatcher
  Reads : List Nat

/-- `pjit_callback(fName, paramc, params)`, lines 97-125 of PolyJIT.cpp, run
with the statics `JIT`, the dispatcher `Disp` and the modules `Modules` that
live at the addresses (none where no module lives, as at `0`).
`getRuntimeParameters(F, paramc, params)` is the function of
FunctionDispatcher.cpp applied to an empty vector. -/
def pjit_callback (JIT : PolyJITStatics) (Disp : FunctionDispatcher)
    (Modules : ModulePtr → Option Module) (fName : String) (paramc : Nat)
    (params : Nat → Nat) : CallbackResult :=
  let got := PolyJIT.Get JIT 0 0
  match (got.2.Objects.get? got.1).bind (fun Obj => Modules Obj.M) with
  | none => { Outcome := CallbackOutcome.NoModule, JIT := got.2, Disp := Disp, Reads := [] }
  | some M =>
    match Module.getFunction M fName with
    | none => { Outcome := CallbackOutcome.Unreachable, JIT := got.2, Disp := Disp, Reads := [] }
    | some F =>
      let RuntimeParams := getRuntimeParameters F paramc params []
      let PArr := RuntimeParams.1
      let ArgReads := List.range paramc
      let r := getFunctionForValues Disp F PArr
      { Outcome := CallbackOutcome.Dispatched r.1, JIT := got.2, Disp := r.2,
        Reads := RuntimeParams.2 ++ ArgReads }

/-- Modules in memory: at address `7` a module that holds the unit `test`. -/
def modulesAt7 (a : ModulePtr) : Option Module :=
  if a = 7 then some [unitTest] else none

/-! ## Vocabulary for the last statements about the detector -/

/-- The regions reached from a region by descending into the first child
only: its first child, the first child of that child, and so on. -/
def firstChildChain : Region → List RegionPtr
  | .mk _ [] => []
  | .mk _ (Sub :: _) => Region.id Sub :: firstChildChain Sub

/-! ## The report of the detector -/

/-- The loop of lines 298-301 of JitScopDetection.cpp over the reasons still
to print, entered with the counter `k`: the lines written. -/
def printReasons : List RejectReason → Nat → List String
  | [], _ => []
  | Entry :: rest, k =>
    ("      " ++ toString k ++ " - " ++ Entry.Message) :: printReasons rest (k + 1)

/-- The loop of lines 292-303 over the rejection log, for the region `R`: the
lines written. -/
def printRejects (R : RegionPtr) : List (Option Region × RejectLog) → List String
  | [] => []
  | Reject :: rest =>
    (if rejectKey Reject = some R then
      ("    " ++ toString Reject.2.length ++ " reasons can be fixed at run time:") ::
        printReasons Reject.2 0
    else []) ++ printRejects R rest

/-- The loop of lines 285-289 over the parameters still to print: the lines
written.  The counter `j` is printed and never incremented. -/
def printParams (printSCEV : SCEV → String) : ParamList → Nat → List String
  | [], _ => []
  | S :: rest, j =>
    ("    " ++ toString j ++ " - " ++ printSCEV S) :: printParams printSCEV rest j

/-- The loop of lines 280-304 over the jitable regions still to print, entered
with the counter `i`: the lines written, or none when `RequiredParams.at(R)`
throws because `R` has no entry. -/
def printRegions (getNameStr : RegionPtr → String) (printSCEV : SCEV → String)
    (RequiredParams : ParamMap) (Rejects : List (Option Region × RejectLog)) :
    List RegionPtr → Nat → Option (List String)
  | [], _ => some []
  | R :: rest, i =>
    match StdMap.find RequiredParams R with
    | none => none
    | some L =>
      match printRegions getNameStr printSCEV RequiredParams Rejects rest (i + 1) with
      | none => none
      | some more =>
        some (("  " ++ toString i ++ " region " ++ getNameStr R ++ " requires " ++
            toString L.length ++ " params") ::
          (printParams printSCEV L 0 ++ printRejects R Rejects ++ more))

/-- `JitScopDetection::print(OS, M)`, lines 272-305: the lines written to
`OS`, or none when `RequiredParams.at` throws.  `Rejects` is the rejection log
of the member `SD`, `getNameStr` gives the name of a region and `printSCEV`
the text of an expression. -/
def print (S : JitScopDetection) (Rejects : List (Option Region × RejectLog))
    (getNameStr : RegionPtr → String) (printSCEV : SCEV → String) : Option (List String) :=
  match printRegions getNameStr printSCEV S.RequiredParams Rejects S.JitableScops 0 with
  | none => none
  | some more =>
    some ((toString S.JitableScops.length ++ " regions require runtime support:") :: more)

/-- Every jitable region has an entry in `RequiredParams`. -/
def hasRequiredParams (S : JitScopDetection) : Prop :=
  ∀ R ∈ S.JitableScops, StdMap.find S.RequiredParams R ≠ none

instance (S : JitScopDetection) : Decidable (hasRequiredParams S) := by
  unfold hasRequiredParams; infer_instance

/-- The names of the regions of `rejectsOfTest1`. -/
def namesOfTest1 (_R : RegionPtr) : String := "%1 => %11"

/-- The text of the expressions of `rejectsOfTest1`. -/
def scevOfTest1 (_S : SCEV) : String := "%n"

/-! ## The unit of the run tests -/

/-- The signed value of the bit pattern `V` of an integer of the given width. -/
def toSigned (BitWidth : Nat) (V : Nat) : Int :=
  if V % 2 ^ BitWidth < 2 ^ (BitWidth - 1) then ((V % 2 ^ BitWidth : Nat) : Int)
  else ((V % 2 ^ BitWidth : Nat) : Int) - ((2 ^ BitWidth : Nat) : Int)

/-- The value of a use in the body of a unit when the formals have the values
`Formals`: the load that stands for a formal has the value of the formal, a
constant has its own value, and nothing is known of any other value. -/
def evalValue (Formals : Nat → Int) : Value → Option Int
  | Value.Load i => some (Formals i)
  | Value.Constant C => some (toSigned C.BitWidth C.Value)
  | Value.Instruction _ => none

/-- The statement `A[i*n] = A[i] + n` of `test`, test/Run/1-struct-param.c
line 11, with `Stride` for the `n` of the index and `Addend` for the `n` that
is added: the array afterwards, none when an index is outside the array or the
sum outside `int`. -/
def testStatement (Stride Addend : Int) (A : List Int) (i : Nat) : Option (List Int) :=
  let Index := (i : Int) * Stride
  if 0 ≤ Index ∧ Index < (A.length : Int) then
    match A.get? i with
    | some Ai =>
      if -(2 : Int) ^ 31 ≤ Ai + Addend ∧ Ai + Addend < (2 : Int) ^ 31 then
        some (A.set Index.toNat (Ai + Addend))
      else none
    | none => none
  else none

/-- The loop `for (int i = 0; i < 5; i++)` of `test`, lines 10-12, with the
number of iterations still to run and the current `i`. -/
def testLoop (Stride Addend : Int) : Nat → Nat → List Int → Option (List Int)
  | 0, _, A => some A
  | Remaining + 1, i, A =>
    match testStatement Stride Addend A i with
    | some A1 => testLoop Stride Addend Remaining (i + 1) A1
    | none => none

/-- The uses of the formal `n` in the body of the unit extracted from `test`:
the one in the index and the one in the sum. -/
def usesOfTest : List Value := [Value.Load 0, Value.Load 0]

/-- The unit extracted from `test` run on the array `A`, with the values
`Uses` at its two uses of `n` and the values `Formals` for its formals. -/
def runTest (Uses : List Value) (Formals : Nat → Int) (A : List Int) : Option (List Int) :=
  match Uses with
  | [StrideUse, AddendUse] =>
    match evalValue Formals StrideUse, evalValue Formals AddendUse with
    | some Stride, some Addend => testLoop Stride Addend 5 0 A
    | _, _ => none
  | _ => none

/-- The uses in the variant of `test` that is specialized for the slot value
`raw`: what `Apply` makes of `usesOfTest` with the run-time parameters read
for the unit. -/
def variantOfTest (raw : Nat) : Option (List Value) :=
  Apply (getRuntimeParameters unitTest 1 (fun _ => raw) []).1 unitTest variantTarget
    (CreateUnpackParamsO2 unitTest) usesOfTest

/-- The array `StrA.A` of the test at program start: ten zeros. -/
def zeroArray : List Int := List.replicate 10 0

/-! ## Properties of `eraseAllChildren` -/

mutual
theorem eraseAllChildren_subset : ∀ (R : Region) (Regs : ScopSet) (x : RegionPtr),
    x ∈ (eraseAllChildren Regs R).2 → x ∈ Regs
  | .mk _ subs, Regs, x => by
    rw [eraseAllChildren]
    exact eraseAllChildrenLoop_subset subs Regs 0 x
theorem eraseAllChildrenLoop_subset : ∀ (subs : List Region) (Regs : ScopSet) (Count : Nat)
    (x : RegionPtr), x ∈ (eraseAllChildrenLoop Regs Count subs).2 → x ∈ Regs
  | [], Regs, Count, x => by
    rw [eraseAllChildrenLoop]; exact id
  | S :: rest, Regs, Count, x => by
    rw [eraseAllChildrenLoop]
    split
    · intro h
      have h1 := eraseAllChildrenLoop_subset rest _ _ x h
      exact List.mem_of_mem_erase h1
    · intro h
      have h1 := eraseAllChildrenLoop_subset rest _ _ x h
      exact eraseAllChildren_subset S Regs x h1
end

mutual
theorem eraseAllChildren_nodup : ∀ (R : Region) (Regs : ScopSet),
    Regs.Nodup → (eraseAllChildren Regs R).2.Nodup
  | .mk _ subs, Regs => by
    rw [eraseAllChildren]
    exact eraseAllChildrenLoop_nodup subs Regs 0
theorem eraseAllChildrenLoop_nodup : ∀ (subs : List Region) (Regs : ScopSet) (Count : Nat),
    Regs.Nodup → (eraseAllChildrenLoop Regs Count subs).2.Nodup
  | [], Regs, Count => by
    rw [eraseAllChildrenLoop]; exact id
  | S :: rest, Regs, Count => by
    rw [eraseAllChildrenLoop]
    split
    · intro h
      exact eraseAllChildrenLoop_nodup rest _ _ (List.Nodup.erase _ h)
    · intro h
      exact eraseAllChildrenLoop_nodup rest _ _ (eraseAllChildren_nodup S Regs h)
end

theorem descendants_mk (i : RegionPtr) (subs : List Region) :
    Region.descendants (.mk i subs) = (subregionsOfList subs).map Region.id := by
  simp [Region.descendants, Region.subregions]

theorem subregionsOfList_cons (S : Region) (rest : List Region) :
    subregionsOfList (S :: rest) = S :: (Region.subregions S ++ subregionsOfList rest) := by
  rw [subregionsOfList]

mutual
theorem eraseAllChildren_clears : ∀ (R : Region) (Regs : ScopSet), Regs.Nodup →
    (∀ S ∈ Region.subregions R, Region.id S ∈ Regs →
      ∀ d ∈ Region.descendants S, d ∉ Regs) →
    ∀ d ∈ Region.descendants R, d ∉ (eraseAllChildren Regs R).2
  | .mk i subs, Regs => by
    intro hnd hanti d hd
    rw [eraseAllChildren]
    rw [descendants_mk] at hd
    rw [Region.subregions] at hanti
    exact eraseAllChildrenLoop_clears subs Regs 0 hnd hanti d hd
theorem eraseAllChildrenLoop_clears : ∀ (subs : List Region) (Regs : ScopSet) (Count : Nat),
    Regs.Nodup →
    (∀ S ∈ subregionsOfList subs, Region.id S ∈ Regs →
      ∀ d ∈ Region.descendants S, d ∉ Regs) →
    ∀ d ∈ (subregionsOfList subs).map Region.id, d ∉ (eraseAllChildrenLoop Regs Count subs).2
  | [], Regs, Count => by
    intro _ _ d hd
    simp [subregionsOfList] at hd
  | S :: rest, Regs, Count => by
    intro hnd hanti d hd
    rw [subregionsOfList_cons] at hd hanti
    rw [eraseAllChildrenLoop]
    simp only [List.map_cons, List.map_append, List.mem_cons, List.mem_append] at hd
    split
    next hS =>
      have hS' : Region.id S ∈ Regs := by simpa [ScopSet.count] using hS
      have hnd1 : (ScopSet.remove Regs (Region.id S)).Nodup := List.Nodup.erase _ hnd
      intro hfin
      have h1 := eraseAllChildrenLoop_subset rest _ _ d hfin
      rcases hd with hd | hd | hd
      · subst hd
        exact ((List.Nodup.mem_erase_iff hnd).1 h1).1 rfl
      · exact hanti S (List.mem_cons_self _ _) hS' d hd (List.mem_of_mem_erase h1)
      · refine eraseAllChildrenLoop_clears rest _ _ hnd1 ?_ d hd hfin
        intro T hT hTid e he hmem
        exact hanti T (List.mem_cons_of_mem _ (List.mem_append_right _ hT))
          (List.mem_of_mem_erase hTid) e he (List.mem_of_mem_erase hmem)
    next hS =>
      have hS' : Region.id S ∉ Regs := by simpa [ScopSet.count] using hS
      intro hfin
      have h1 := eraseAllChildrenLoop_subset rest _ _ d hfin
      rcases hd with hd | hd | hd
      · subst hd
        exact hS' (eraseAllChildren_subset S Regs _ h1)
      · refine eraseAllChildren_clears S Regs hnd ?_ d hd h1
        intro T hT hTid e he
        exact hanti T (List.mem_cons_of_mem _ (List.mem_append_left _ hT)) hTid e he
      · refine eraseAllChildrenLoop_clears rest _ _ (eraseAllChildren_nodup S Regs hnd) ?_ d hd hfin
        intro T hT hTid e he hmem
        exact hanti T (List.mem_cons_of_mem _ (List.mem_append_right _ hT))
          (eraseAllChildren_subset S Regs _ hTid) e he (eraseAllChildren_subset S Regs _ hmem)
end

/-! ## C6: what `eraseAllChildren` removes -/

/-- C6, as stated, fails: with the child `1` and the grandchild `2` of region `0`
both in `Regs`, `eraseAllChildren` removes `1`, does not descend into it, and
leaves `2`, a region nested inside `0`, in `Regs`. -/
theorem C6_counterexample :
    2 ∈ Region.descendants (.mk 0 [.mk 1 [.mk 2 []]]) ∧
    eraseAllChildren [1, 2] (.mk 0 [.mk 1 [.mk 2 []]]) = (1, [2]) ∧
    2 ∈ (eraseAllChildren [1, 2] (.mk 0 [.mk 1 [.mk 2 []]])).2 := by
  decide

/-- C6, amended: if no region of `Regs` that is nested inside `R` has a region
of `Regs` nested inside itself, then after `eraseAllChildren(Regs, R)` no
region nested inside `R` (direct or indirect child) is an element of `Regs`. -/
theorem C6_eraseAllChildren_clears_antichain (Regs : ScopSet) (R : Region)
    (hset : Regs.Nodup)
    (hanti : ∀ S ∈ Region.subregions R, Region.id S ∈ Regs →
      ∀ d ∈ Region.descendants S, d ∉ Regs) :
    ∀ d ∈ Region.descendants R, d ∉ (eraseAllChildren Regs R).2 :=
  eraseAllChildren_clears R Regs hset hanti

/-- C6, amended, at `Regs = {1, 3, 9}` and the region `0` with children `1`
(holding `2`) and `5` (holding `3`). -/
theorem C6_eraseAllChildren_clears_antichain_witness :
    List.Nodup [1, 3, 9] ∧
    (eraseAllChildren [1, 3, 9] (.mk 0 [.mk 1 [.mk 2 []], .mk 5 [.mk 3 []]])).2 = [9] ∧
    (∀ d ∈ Region.descendants (.mk 0 [.mk 1 [.mk 2 []], .mk 5 [.mk 3 []]]),
      d ∉ (eraseAllChildren [1, 3, 9] (.mk 0 [.mk 1 [.mk 2 []], .mk 5 [.mk 3 []]])).2) :=
  ⟨by decide, by decide,
    C6_eraseAllChildren_clears_antichain [1, 3, 9]
      (.mk 0 [.mk 1 [.mk 2 []], .mk 5 [.mk 3 []]]) (by decide) (by decide)⟩

/-! ## Properties of the containers -/

theorem StdMap.find_set_self {κ ν : Type} [DecidableEq κ] (M : StdMap κ ν) (K : κ) (V : ν) :
    StdMap.find (StdMap.set M K V) K = some V := by
  induction M with
  | nil => simp [StdMap.set, StdMap.find]
  | cons e rest ih =>
    by_cases h : e.1 = K
    · simp [StdMap.set, StdMap.find, h]
    · simp [StdMap.set, StdMap.find, h, ih]

theorem StdMap.find_set_other {κ ν : Type} [DecidableEq κ] (M : StdMap κ ν) (K K' : κ) (V : ν)
    (h : K' ≠ K) : StdMap.find (StdMap.set M K V) K' = StdMap.find M K' := by
  induction M with
  | nil =>
    have h' : ¬ K = K' := fun e => h e.symm
    simp [StdMap.set, StdMap.find, h']
  | cons e rest ih =>
    by_cases h1 : e.1 = K
    · have h2 : ¬ e.1 = K' := fun e' => h (e'.symm.trans h1)
      have h3 : ¬ K = K' := fun e' => h e'.symm
      simp [StdMap.set, StdMap.find, h1, h2, h3]
    · by_cases h2 : e.1 = K'
      · simp [StdMap.set, StdMap.find, h1, h2, h]
      · simp [StdMap.set, StdMap.find, h1, h2, ih]

theorem ScopSet.mem_insert (Regs : ScopSet) (R x : RegionPtr) :
    x ∈ ScopSet.insert Regs R ↔ x ∈ Regs ∨ x = R := by
  unfold ScopSet.insert
  split
  next h =>
    have hR : R ∈ Regs := by simpa [ScopSet.count] using h
    constructor
    · exact Or.inl
    · rintro (h1 | h1)
      · exact h1
      · exact h1 ▸ hR
  next h => simp

/-! ## Properties of the checkers -/

theorem isValidNonAffine_fst (K : RejectReasonKind) (Chk : NonAffineChecker)
    (Reason : RejectReason) :
    (isValidNonAffine K Chk Reason).1 = (decide (Reason.Kind = K) && Reason.Fix.isSome) := by
  unfold isValidNonAffine
  by_cases h : Reason.Kind = K
  · cases hf : Reason.Fix <;> simp [h]
  · simp [h]

theorem isValidNonAffine_params (K : RejectReasonKind) (Chk : NonAffineChecker)
    (Reason : RejectReason) :
    (isValidNonAffine K Chk Reason).2.Params =
      Chk.Params ++ (if Reason.Kind = K then Reason.Fix.getD [] else []) := by
  unfold isValidNonAffine
  by_cases h : Reason.Kind = K
  · cases hf : Reason.Fix <;> simp [h, NonAffineChecker.append]
  · simp [h]

/-- The flag `IsFixable` of lines 218-222, independent of what the checkers
have collected. -/
theorem checkReason_fst (st : Bool × Checkers) (Reason : RejectReason) :
    (checkReason st Reason).1 = true ↔ st.1 = true ∧ checkerAccepts Reason := by
  haveI : Nonempty NonAffineChecker := ⟨⟨[], 0⟩⟩
  simp only [checkReason, checkerAccepts, isValidNonAffine_fst]
  simp
  intro _
  tauto

theorem checkLog_foldl_fst (Log : RejectLog) (st : Bool × Checkers) :
    (Log.foldl checkReason st).1 = true ↔ st.1 = true ∧ ∀ Reason ∈ Log, checkerAccepts Reason := by
  induction Log generalizing st with
  | nil => simp
  | cons r rest ih =>
    rw [List.foldl_cons, ih, checkReason_fst]
    simp only [List.mem_cons, forall_eq_or_imp]
    tauto

theorem checkLog_fst (R : RegionPtr) (Log : RejectLog) :
    (checkLog R Log).1 = true ↔ Log ≠ [] ∧ ∀ Reason ∈ Log, checkerAccepts Reason := by
  unfold checkLog
  rw [checkLog_foldl_fst]
  simp [List.length_pos]

theorem checkLog_foldl_params (Log : RejectLog) (st : Bool × Checkers) :
    (Log.foldl checkReason st).2.NonAffAccessChk.Params =
        st.2.NonAffAccessChk.Params ++ kindParams RejectReasonKind.NonAffineAccess Log ∧
    (Log.foldl checkReason st).2.NonAffBranchChk.Params =
        st.2.NonAffBranchChk.Params ++ kindParams RejectReasonKind.NonAffBranch Log ∧
    (Log.foldl checkReason st).2.LoopBoundChk.Params =
        st.2.LoopBoundChk.Params ++ kindParams RejectReasonKind.LoopBound Log := by
  induction Log generalizing st with
  | nil => simp [kindParams]
  | cons r rest ih =>
    rw [List.foldl_cons]
    obtain ⟨h1, h2, h3⟩ := ih (checkReason st r)
    rw [h1, h2, h3]
    simp [checkReason, isValidNonAffine_params, kindParams]

theorem checkLog_params (R : RegionPtr) (Log : RejectLog) :
    NonAffineChecker.params (checkLog R Log).2.NonAffAccessChk =
        kindParams RejectReasonKind.NonAffineAccess Log ∧
    NonAffineChecker.params (checkLog R Log).2.NonAffBranchChk =
        kindParams RejectReasonKind.NonAffBranch Log ∧
    NonAffineChecker.params (checkLog R Log).2.LoopBoundChk =
        kindParams RejectReasonKind.LoopBound Log := by
  have h := checkLog_foldl_params Log (decide (Log.length > 0), Checkers.init R)
  simpa [checkLog, NonAffineChecker.params, Checkers.init] using h

theorem reasonParams_eq (Reason : RejectReason) :
    reasonParams Reason =
      (if Reason.Kind = RejectReasonKind.NonAffineAccess then Reason.Fix.getD [] else []) ++
      (if Reason.Kind = RejectReasonKind.NonAffBranch then Reason.Fix.getD [] else []) ++
      (if Reason.Kind = RejectReasonKind.LoopBound then Reason.Fix.getD [] else []) := by
  simp [reasonParams, checkReason, NonAffineChecker.params, isValidNonAffine_params,
    Checkers.init]

theorem reasonParams_of_kind (K : RejectReasonKind) (Reason : RejectReason)
    (hK : K = RejectReasonKind.NonAffineAccess ∨ K = RejectReasonKind.NonAffBranch ∨
      K = RejectReasonKind.LoopBound) (h : Reason.Kind = K) :
    reasonParams Reason = Reason.Fix.getD [] := by
  rw [reasonParams_eq, h]
  rcases hK with hK | hK | hK <;> subst hK <;> simp

theorem kindParams_eq_inLogOrder (K : RejectReasonKind) (Log : RejectLog)
    (hK : K = RejectReasonKind.NonAffineAccess ∨ K = RejectReasonKind.NonAffBranch ∨
      K = RejectReasonKind.LoopBound) :
    kindParams K Log = paramsInLogOrder (reasonsOfKind K Log) := by
  induction Log with
  | nil => simp [kindParams, reasonsOfKind, paramsInLogOrder]
  | cons r rest ih =>
    by_cases h : r.Kind = K
    · have hf : reasonsOfKind K (r :: rest) = r :: reasonsOfKind K rest := by
        simp [reasonsOfKind, h]
      rw [hf, paramsInLogOrder, kindParams, ih, reasonParams_of_kind K r hK h]
      simp [h]
    · have hf : reasonsOfKind K (r :: rest) = reasonsOfKind K rest := by
        simp [reasonsOfKind, h]
      rw [hf, kindParams, ih]
      simp [h]

theorem kindParams_length_sum (Log : RejectLog) :
    (kindParams RejectReasonKind.NonAffineAccess Log ++
      kindParams RejectReasonKind.NonAffBranch Log ++
      kindParams RejectReasonKind.LoopBound Log).length =
    (Log.map (fun Reason => (reasonParams Reason).length)).sum := by
  induction Log with
  | nil => simp [kindParams]
  | cons r rest ih =>
    simp only [List.length_append] at ih
    simp only [kindParams, List.map_cons, List.sum_cons, List.length_append]
    rw [reasonParams_eq r]
    simp only [List.length_append]
    omega

theorem checkerAccepts_iff (Reason : RejectReason) :
    checkerAccepts Reason ↔
      (Reason.Kind = RejectReasonKind.NonAffineAccess ∨ Reason.Kind = RejectReasonKind.NonAffBranch ∨
        Reason.Kind = RejectReasonKind.LoopBound ∨ Reason.Kind = RejectReasonKind.Alias) ∧
      Reason.Fix.isSome = true := by
  haveI : Nonempty NonAffineChecker := ⟨⟨[], 0⟩⟩
  simp only [checkerAccepts, isValidNonAffine_fst, isValidAliasing]
  simp
  tauto

theorem kindParams_append (K : RejectReasonKind) (L1 L2 : RejectLog) :
    kindParams K (L1 ++ L2) = kindParams K L1 ++ kindParams K L2 := by
  induction L1 with
  | nil => simp [kindParams]
  | cons r rest ih => simp [kindParams, ih]

theorem kindParams_of_none (K : RejectReasonKind) (L : RejectLog)
    (h : ∀ Reason ∈ L, Reason.Kind ≠ K) : kindParams K L = [] := by
  induction L with
  | nil => simp [kindParams]
  | cons r rest ih =>
    have h1 : r.Kind ≠ K := h r (List.mem_cons_self _ _)
    simp [kindParams, h1, ih (fun x hx => h x (List.mem_cons_of_mem _ hx))]

theorem paramsInLogOrder_append (L1 L2 : RejectLog) :
    paramsInLogOrder (L1 ++ L2) = paramsInLogOrder L1 ++ paramsInLogOrder L2 := by
  induction L1 with
  | nil => simp [paramsInLogOrder]
  | cons r rest ih => simp [paramsInLogOrder, ih]

theorem paramsInLogOrder_eq_kindParams (L : RejectLog) :
    paramsInLogOrder L =
      if ∀ Reason ∈ L, Reason.Kind ≠ RejectReasonKind.NonAffBranch ∧
          Reason.Kind ≠ RejectReasonKind.LoopBound then
        kindParams RejectReasonKind.NonAffineAccess L
      else if ∀ Reason ∈ L, Reason.Kind ≠ RejectReasonKind.NonAffineAccess ∧
          Reason.Kind ≠ RejectReasonKind.LoopBound then
        kindParams RejectReasonKind.NonAffBranch L
      else if ∀ Reason ∈ L, Reason.Kind ≠ RejectReasonKind.NonAffineAccess ∧
          Reason.Kind ≠ RejectReasonKind.NonAffBranch then
        kindParams RejectReasonKind.LoopBound L
      else paramsInLogOrder L := by
  have key : ∀ (K : RejectReasonKind) (L : RejectLog),
      (∀ Reason ∈ L, ∀ K' : RejectReasonKind, K' ≠ K →
        (K' = RejectReasonKind.NonAffineAccess ∨ K' = RejectReasonKind.NonAffBranch ∨
          K' = RejectReasonKind.LoopBound) → Reason.Kind ≠ K') →
      (K = RejectReasonKind.NonAffineAccess ∨ K = RejectReasonKind.NonAffBranch ∨
          K = RejectReasonKind.LoopBound) →
      paramsInLogOrder L = kindParams K L := by
    intro K L
    induction L with
    | nil => intro _ _; simp [paramsInLogOrder, kindParams]
    | cons r rest ih =>
      intro h hK
      have hr := h r (List.mem_cons_self _ _)
      rw [paramsInLogOrder, kindParams, ih (fun x hx => h x (List.mem_cons_of_mem _ hx)) hK,
        reasonParams_eq]
      congr 1
      rcases hK with hK | hK | hK <;> subst hK
      · have h2 := hr RejectReasonKind.NonAffBranch (by decide) (by simp)
        have h3 := hr RejectReasonKind.LoopBound (by decide) (by simp)
        simp [h2, h3]
      · have h2 := hr RejectReasonKind.NonAffineAccess (by decide) (by simp)
        have h3 := hr RejectReasonKind.LoopBound (by decide) (by simp)
        simp [h2, h3]
      · have h2 := hr RejectReasonKind.NonAffineAccess (by decide) (by simp)
        have h3 := hr RejectReasonKind.NonAffBranch (by decide) (by simp)
        simp [h2, h3]
  split
  next h =>
    apply key _ _ _ (by simp)
    intro r hr K' hK' hK3
    rcases hK3 with e | e | e <;> subst e
    · exact absurd rfl hK'
    · exact (h r hr).1
    · exact (h r hr).2
  next =>
    split
    next h =>
      apply key _ _ _ (by simp)
      intro r hr K' hK' hK3
      rcases hK3 with e | e | e <;> subst e
      · exact (h r hr).1
      · exact absurd rfl hK'
      · exact (h r hr).2
    next =>
      split
      next h =>
        apply key _ _ _ (by simp)
        intro r hr K' hK' hK3
        rcases hK3 with e | e | e <;> subst e
        · exact (h r hr).1
        · exact (h r hr).2
        · exact absurd rfl hK'
      next => rfl

/-- On a log whose reasons come sorted by checker (access, then branch, then
loop bound), grouping the parameters by checker gives the log order. -/
theorem kindParams_grouped_of_sorted (La Lb Lc : RejectLog)
    (ha : ∀ Reason ∈ La, Reason.Kind ≠ RejectReasonKind.NonAffBranch ∧
      Reason.Kind ≠ RejectReasonKind.LoopBound)
    (hb : ∀ Reason ∈ Lb, Reason.Kind ≠ RejectReasonKind.NonAffineAccess ∧
      Reason.Kind ≠ RejectReasonKind.LoopBound)
    (hc : ∀ Reason ∈ Lc, Reason.Kind ≠ RejectReasonKind.NonAffineAccess ∧
      Reason.Kind ≠ RejectReasonKind.NonAffBranch) :
    kindParams RejectReasonKind.NonAffineAccess (La ++ Lb ++ Lc) ++
      kindParams RejectReasonKind.NonAffBranch (La ++ Lb ++ Lc) ++
      kindParams RejectReasonKind.LoopBound (La ++ Lb ++ Lc) =
    paramsInLogOrder (La ++ Lb ++ Lc) := by
  have a1 := paramsInLogOrder_eq_kindParams La
  rw [if_pos ha] at a1
  have b1 : paramsInLogOrder Lb = kindParams RejectReasonKind.NonAffBranch Lb := by
    have h := paramsInLogOrder_eq_kindParams Lb
    by_cases h0 : ∀ Reason ∈ Lb, Reason.Kind ≠ RejectReasonKind.NonAffBranch ∧
        Reason.Kind ≠ RejectReasonKind.LoopBound
    · rw [if_pos h0] at h
      rw [h, kindParams_of_none _ _ (fun r hr => (hb r hr).1),
        kindParams_of_none _ _ (fun r hr => (h0 r hr).1)]
    · rw [if_neg h0, if_pos hb] at h
      exact h
  have c1 : paramsInLogOrder Lc = kindParams RejectReasonKind.LoopBound Lc := by
    have h := paramsInLogOrder_eq_kindParams Lc
    by_cases h0 : ∀ Reason ∈ Lc, Reason.Kind ≠ RejectReasonKind.NonAffBranch ∧
        Reason.Kind ≠ RejectReasonKind.LoopBound
    · rw [if_pos h0] at h
      rw [h, kindParams_of_none _ _ (fun r hr => (hc r hr).1),
        kindParams_of_none _ _ (fun r hr => (h0 r hr).2)]
    · by_cases h1 : ∀ Reason ∈ Lc, Reason.Kind ≠ RejectReasonKind.NonAffineAccess ∧
          Reason.Kind ≠ RejectReasonKind.LoopBound
      · rw [if_neg h0, if_pos h1] at h
        rw [h, kindParams_of_none _ _ (fun r hr => (hc r hr).2),
          kindParams_of_none _ _ (fun r hr => (h1 r hr).2)]
      · rw [if_neg h0, if_neg h1, if_pos hc] at h
        exact h
  simp only [kindParams_append, paramsInLogOrder_append, a1, b1, c1,
    kindParams_of_none _ _ (fun r hr => (ha r hr).1),
    kindParams_of_none _ _ (fun r hr => (ha r hr).2),
    kindParams_of_none _ _ (fun r hr => (hb r hr).1),
    kindParams_of_none _ _ (fun r hr => (hb r hr).2),
    kindParams_of_none _ _ (fun r hr => (hc r hr).1),
    kindParams_of_none _ _ (fun r hr => (hc r hr).2),
    List.append_nil, List.nil_append, List.append_assoc]

/-! ## Properties of one step of the detector -/

theorem processReject_null (Top : Region) (S : JitScopDetection) (Rej : Option Region × RejectLog)
    (h : Rej.1 = none) : processReject Top S Rej = S := by
  simp [processReject, h]

theorem processReject_invalid (Top : Region) (S : JitScopDetection)
    (Rej : Option Region × RejectLog) (R : Region) (h : Rej.1 = some R)
    (hbad : (checkLog (Region.id R) Rej.2).1 = false) :
    processReject Top S Rej =
      { S with JitableScops := ScopSet.insert S.JitableScops (Region.id R)
               JitScopsFound := S.JitScopsFound + 1 } := by
  simp [processReject, h, hbad]

theorem processReject_find_other (Top : Region) (S : JitScopDetection)
    (Rej : Option Region × RejectLog) (r : RegionPtr) (hkey : rejectKey Rej ≠ some r) :
    StdMap.find (processReject Top S Rej).RequiredParams r = StdMap.find S.RequiredParams r := by
  unfold processReject
  split
  next => rfl
  next R hR =>
    have hne : r ≠ Region.id R := by
      intro e
      apply hkey
      simp [rejectKey, hR, e]
    dsimp only
    split
    · split
      · exact StdMap.find_set_other _ _ _ _ hne
      · exact StdMap.find_set_other _ _ _ _ hne
    · rfl

theorem processReject_find_valid (Top : Region) (S : JitScopDetection) (R : Region)
    (Log : RejectLog) (hvalid : (checkLog (Region.id R) Log).1 = true) :
    StdMap.find (processReject Top S (some R, Log)).RequiredParams (Region.id R) =
      some (StdMap.get S.RequiredParams (Region.id R) ++
        kindParams RejectReasonKind.NonAffineAccess Log ++
        kindParams RejectReasonKind.NonAffBranch Log ++
        kindParams RejectReasonKind.LoopBound Log) := by
  obtain ⟨h1, h2, h3⟩ := checkLog_params (Region.id R) Log
  unfold processReject
  simp only [hvalid, if_true]
  split
  · simp only [StdMap.find_set_self, h1, h2, h3]
  · simp only [StdMap.find_set_self, h1, h2, h3]

/-! ## Properties of the loop over the rejection log -/

theorem foldl_processReject_find_other (Top : Region) (r : RegionPtr)
    (Rejects : List (Option Region × RejectLog)) (S : JitScopDetection)
    (hkeys : ∀ Rej ∈ Rejects, rejectKey Rej ≠ some r) :
    StdMap.find (Rejects.foldl (processReject Top) S).RequiredParams r =
      StdMap.find S.RequiredParams r := by
  induction Rejects generalizing S with
  | nil => rfl
  | cons e rest ih =>
    rw [List.foldl_cons, ih _ (fun Rej hRej => hkeys Rej (List.mem_cons_of_mem _ hRej))]
    exact processReject_find_other Top S e r (hkeys e (List.mem_cons_self _ _))

theorem foldl_processReject_find_valid (Top : Region) (R : Region) (Log : RejectLog)
    (Rejects : List (Option Region × RejectLog)) (S : JitScopDetection)
    (hmap : (Rejects.map rejectKey).Nodup) (hmem : (some R, Log) ∈ Rejects)
    (hvalid : (checkLog (Region.id R) Log).1 = true) :
    StdMap.find (Rejects.foldl (processReject Top) S).RequiredParams (Region.id R) =
      some (StdMap.get S.RequiredParams (Region.id R) ++
        (kindParams RejectReasonKind.NonAffineAccess Log ++
          kindParams RejectReasonKind.NonAffBranch Log ++
          kindParams RejectReasonKind.LoopBound Log)) := by
  induction Rejects generalizing S with
  | nil => simp at hmem
  | cons e rest ih =>
    rw [List.map_cons, List.nodup_cons] at hmap
    rw [List.foldl_cons]
    rcases List.mem_cons.1 hmem with he | hrest
    · subst he
      rw [foldl_processReject_find_other, processReject_find_valid Top S R Log hvalid]
      · simp only [List.append_assoc]
      · intro Rej hRej hkey
        apply hmap.1
        have : rejectKey (some R, Log) = rejectKey Rej := by
          rw [hkey]; rfl
        rw [this]
        exact List.mem_map_of_mem _ hRej
    · rw [ih _ hmap.2 hrest]
      have hother : StdMap.find (processReject Top S e).RequiredParams (Region.id R) =
          StdMap.find S.RequiredParams (Region.id R) := by
        apply processReject_find_other
        intro hkey
        apply hmap.1
        have : rejectKey e = rejectKey (some R, Log) := by
          rw [hkey]; rfl
        rw [this]
        exact List.mem_map_of_mem _ hrest
      simp only [StdMap.get, hother]

theorem runOnFunction_jitable (S : JitScopDetection) (F : Function) (A : Analyses) :
    (runOnFunction S F A).2.JitableScops = S.JitableScops ∨
    (runOnFunction S F A).2.JitableScops =
      (A.Rejects.foldl (processReject A.TopLevel) S).JitableScops := by
  unfold runOnFunction
  split
  · exact Or.inl rfl
  · split
    · exact Or.inl rfl
    · split
      · exact Or.inl rfl
      · exact Or.inr rfl

theorem runOnFunction_requiredParams (S : JitScopDetection) (F : Function) (A : Analyses)
    (hen : S.Enabled = true) (hdef : F.isDeclaration = false)
    (hattr : Function.hasFnAttribute F "polyjit-jit-candidate" = false) :
    (runOnFunction S F A).2.RequiredParams =
      (A.Rejects.foldl (processReject A.TopLevel) S).RequiredParams := by
  simp [runOnFunction, hen, hdef, hattr]

/-! ## C1: the jitable set as an antichain -/

/-- C1, the code at the failing input: in the tree `0 > 1 > 2` with the log
`1 -> [fixable], 2 -> [fixable]`, `runOnFunction` started on the empty detector
leaves `JitableScops = {1, 2}`, although `1` is an ancestor of `2`; the
jitable set is not an antichain. -/
theorem C1_nested_regions_both_jitable :
    (runOnFunction JitScopDetection.empty plainFunction
      { Rejects := [(some outerRegion, [fixableAccess [7]]),
                    (some innerRegion, [fixableAccess [8]])],
        Scops := [], TopLevel := nestedTree }).2.JitableScops = [1, 2] ∧
    isAncestor nestedTree 1 2 ∧
    ¬ isAntichain nestedTree [1, 2] := by
  decide

/-! ## C2: a region with an unfixable reason -/

/-- C2, the code at the failing input: in the tree `0 > 2` with the log
`2 -> [fixable, fixable, unfixable]`, whose third reason no checker accepts,
`RegionIsValid` is false, and `runOnFunction` started on the empty detector
still leaves region `2` in `JitableScops` and counts it in `JitScopsFound`,
with nothing recorded in `RequiredParams`. -/
theorem C2_unfixable_region_is_added :
    ¬ checkerAccepts unfixable ∧
    (checkLog 2 [fixableAccess [7], fixableAccess [8], unfixable]).1 = false ∧
    (runOnFunction JitScopDetection.empty plainFunction
      { Rejects := [(some innerRegion, [fixableAccess [7], fixableAccess [8], unfixable])],
        Scops := [], TopLevel := .mk 0 [innerRegion] }).2.JitableScops = [2] ∧
    (runOnFunction JitScopDetection.empty plainFunction
      { Rejects := [(some innerRegion, [fixableAccess [7], fixableAccess [8], unfixable])],
        Scops := [], TopLevel := .mk 0 [innerRegion] }).2.JitScopsFound = 1 ∧
    (runOnFunction JitScopDetection.empty plainFunction
      { Rejects := [(some innerRegion, [fixableAccess [7], fixableAccess [8], unfixable])],
        Scops := [], TopLevel := .mk 0 [innerRegion] }).2.RequiredParams = [] := by
  refine ⟨?_, by decide, by decide, by decide, by decide⟩
  simp [checkerAccepts, isValidNonAffine_fst, isValidAliasing, unfixable]

/-! ## C3: the order of the recorded parameters -/

/-- C3, as stated, fails: for the log `[branch reason needing 1, access reason
needing 2]`, both fixable, the parameters in the order of evaluation are
`[1, 2]`, and `runOnFunction` records `[2, 1]`. -/
theorem C3_counterexample :
    paramsInLogOrder [fixableBranch [1], fixableAccess [2]] = [1, 2] ∧
    StdMap.find (runOnFunction JitScopDetection.empty plainFunction
      { Rejects := [(some innerRegion, [fixableBranch [1], fixableAccess [2]])],
        Scops := [], TopLevel := .mk 0 [innerRegion] }).2.RequiredParams 2 = some [2, 1] := by
  decide

/-- C3, amended: for a region whose reasons are all fixable, the `ParamList`
recorded in `RequiredParams` lists, after what was recorded for the region
before the run (nothing on a first run), the parameters grouped by checker:
those of the non-affine-access reasons in log order, then those of the branch
reasons in log order, then those of the loop-bound reasons in log order.  When
the log is not interleaved (access reasons, then branch reasons, then
loop-bound reasons) this is the order in which the reasons were evaluated. -/
theorem C3_params_grouped_by_checker (S : JitScopDetection) (F : Function) (A : Analyses)
    (R : Region) (Log : RejectLog)
    (hen : S.Enabled = true) (hdef : F.isDeclaration = false)
    (hattr : Function.hasFnAttribute F "polyjit-jit-candidate" = false)
    (hmap : (A.Rejects.map rejectKey).Nodup)
    (hmem : (some R, Log) ∈ A.Rejects)
    (hne : Log ≠ []) (hfix : ∀ Reason ∈ Log, checkerAccepts Reason) :
    StdMap.find (runOnFunction S F A).2.RequiredParams (Region.id R) =
      some (StdMap.get S.RequiredParams (Region.id R) ++
        (paramsInLogOrder (reasonsOfKind RejectReasonKind.NonAffineAccess Log) ++
          paramsInLogOrder (reasonsOfKind RejectReasonKind.NonAffBranch Log) ++
          paramsInLogOrder (reasonsOfKind RejectReasonKind.LoopBound Log))) ∧
    (∀ La Lb Lc : RejectLog, Log = La ++ Lb ++ Lc →
      (∀ Reason ∈ La, Reason.Kind ≠ RejectReasonKind.NonAffBranch ∧
        Reason.Kind ≠ RejectReasonKind.LoopBound) →
      (∀ Reason ∈ Lb, Reason.Kind ≠ RejectReasonKind.NonAffineAccess ∧
        Reason.Kind ≠ RejectReasonKind.LoopBound) →
      (∀ Reason ∈ Lc, Reason.Kind ≠ RejectReasonKind.NonAffineAccess ∧
        Reason.Kind ≠ RejectReasonKind.NonAffBranch) →
      StdMap.find (runOnFunction S F A).2.RequiredParams (Region.id R) =
        some (StdMap.get S.RequiredParams (Region.id R) ++ paramsInLogOrder Log)) := by
  have hvalid : (checkLog (Region.id R) Log).1 = true := (checkLog_fst _ _).2 ⟨hne, hfix⟩
  have hrun := runOnFunction_requiredParams S F A hen hdef hattr
  have hfind := foldl_processReject_find_valid A.TopLevel R Log A.Rejects S hmap hmem hvalid
  rw [← hrun] at hfind
  constructor
  · rw [hfind, kindParams_eq_inLogOrder _ _ (Or.inl rfl),
      kindParams_eq_inLogOrder _ _ (Or.inr (Or.inl rfl)),
      kindParams_eq_inLogOrder _ _ (Or.inr (Or.inr rfl))]
  · intro La Lb Lc hLog ha hb hc
    rw [hfind, hLog, kindParams_grouped_of_sorted La Lb Lc ha hb hc]

/-- C3, amended, at the log `[access reason needing 1, branch reason needing
2]`, which is not interleaved: the recorded list is `[1, 2]`, the order of
evaluation. -/
theorem C3_params_grouped_by_checker_witness :
    StdMap.find (runOnFunction JitScopDetection.empty plainFunction
      { Rejects := [(some innerRegion, [fixableAccess [1], fixableBranch [2]])],
        Scops := [], TopLevel := .mk 0 [innerRegion] }).2.RequiredParams
      (Region.id innerRegion) = some [1, 2] ∧
    paramsInLogOrder [fixableAccess [1], fixableBranch [2]] = [1, 2] :=
  ⟨((C3_params_grouped_by_checker JitScopDetection.empty plainFunction
      { Rejects := [(some innerRegion, [fixableAccess [1], fixableBranch [2]])],
        Scops := [], TopLevel := .mk 0 [innerRegion] }
      innerRegion [fixableAccess [1], fixableBranch [2]]
      rfl rfl (by decide) (by decide) (List.mem_cons_self _ _) (by simp)
      (by simp [checkerAccepts_iff, fixableAccess, fixableBranch])).2
      [fixableAccess [1]] [fixableBranch [2]] [] rfl
      (by simp [fixableAccess]) (by simp [fixableBranch]) (by simp)).trans (by decide),
   by decide⟩

/-! ## C4: duplicates in the recorded parameters -/

/-- C4: for an accepted region, processed once and without an earlier entry in
`RequiredParams`, the length of the recorded `ParamList` is the sum of the
numbers of parameters its individual reasons contribute; nothing is removed as
a duplicate. -/
theorem C4_paramlist_keeps_duplicates (S : JitScopDetection) (F : Function) (A : Analyses)
    (R : Region) (Log : RejectLog)
    (hen : S.Enabled = true) (hdef : F.isDeclaration = false)
    (hattr : Function.hasFnAttribute F "polyjit-jit-candidate" = false)
    (hmap : (A.Rejects.map rejectKey).Nodup)
    (hmem : (some R, Log) ∈ A.Rejects)
    (hne : Log ≠ []) (hfix : ∀ Reason ∈ Log, checkerAccepts Reason)
    (hnew : StdMap.find S.RequiredParams (Region.id R) = none) :
    (StdMap.find (runOnFunction S F A).2.RequiredParams (Region.id R)).map List.length =
      some ((Log.map (fun Reason => (reasonParams Reason).length)).sum) := by
  have hvalid : (checkLog (Region.id R) Log).1 = true := (checkLog_fst _ _).2 ⟨hne, hfix⟩
  have hrun := runOnFunction_requiredParams S F A hen hdef hattr
  have hfind := foldl_processReject_find_valid A.TopLevel R Log A.Rejects S hmap hmem hvalid
  have hold : StdMap.get S.RequiredParams (Region.id R) = [] := by
    simp only [StdMap.get, hnew, Option.getD_none]
    rfl
  rw [hrun, hfind, hold, List.nil_append, Option.map_some', kindParams_length_sum]

/-- C4 at a region with two non-affine-access reasons that both need the
parameter `7` (the `%n` of test 2-struct-param.c): the recorded list is
`[7, 7]`, of length 2. -/
theorem C4_paramlist_keeps_duplicates_witness :
    StdMap.find (runOnFunction JitScopDetection.empty plainFunction
      { Rejects := [(some innerRegion, [fixableAccess [7], fixableAccess [7]])],
        Scops := [], TopLevel := .mk 0 [innerRegion] }).2.RequiredParams
      (Region.id innerRegion) = some [7, 7] ∧
    (StdMap.find (runOnFunction JitScopDetection.empty plainFunction
      { Rejects := [(some innerRegion, [fixableAccess [7], fixableAccess [7]])],
        Scops := [], TopLevel := .mk 0 [innerRegion] }).2.RequiredParams
      (Region.id innerRegion)).map List.length = some 2 :=
  ⟨by decide,
   (C4_paramlist_keeps_duplicates JitScopDetection.empty plainFunction
      { Rejects := [(some innerRegion, [fixableAccess [7], fixableAccess [7]])],
        Scops := [], TopLevel := .mk 0 [innerRegion] }
      innerRegion [fixableAccess [7], fixableAccess [7]]
      rfl rfl (by decide) (by decide) (List.mem_cons_self _ _) (by simp)
      (by simp [checkerAccepts_iff, fixableAccess]) rfl).trans (by decide)⟩

/-! ## C5: a region below a jitable ancestor -/

/-- C5, the code at the failing input: in the tree `0 > 1 > 2` with
`JitableScops = {1}`, region `1` is an ancestor of the fixable region `2` and
is in the jitable set when `2` is processed; `isInvalidRegion` answers `false`
and `runOnFunction` inserts `2`. -/
theorem C5_region_below_jitable_ancestor_inserted :
    isAncestor nestedTree 1 2 ∧
    firstJitableParent [1] ((parentChain 2 nestedTree []).getD []) = some 1 ∧
    isInvalidRegion nestedTree [1] 2 = false ∧
    (runOnFunction { JitScopDetection.empty with JitableScops := [1] } plainFunction
      { Rejects := [(some innerRegion, [fixableAccess [8]])],
        Scops := [], TopLevel := nestedTree }).2.JitableScops = [1, 2] := by
  decide

/-! ## Properties of the variant cache -/

theorem StdMap.set_of_find_none {κ ν : Type} [DecidableEq κ] (M : StdMap κ ν) (K : κ) (V : ν)
    (h : StdMap.find M K = none) : StdMap.set M K V = M ++ [(K, V)] := by
  induction M with
  | nil => rfl
  | cons e rest ih =>
    by_cases h1 : e.1 = K
    · simp [StdMap.find, h1] at h
    · simp only [StdMap.find, h1, if_false] at h
      simp [StdMap.set, h1, ih h]

theorem getOrCreateVariant_hit {κ : Type} [DecidableEq κ] (V : VariantFunction κ) (K : κ)
    (v : FunctionPtr) (h : StdMap.find V.Variants K = some v) :
    getOrCreateVariant V K = (v, V) := by
  simp [getOrCreateVariant, StdMap.count, StdMap.get, h]

theorem getOrCreateVariant_miss {κ : Type} [DecidableEq κ] (V : VariantFunction κ) (K : κ)
    (h : StdMap.find V.Variants K = none) :
    getOrCreateVariant V K =
      (V.Created.length,
        { V with Created := V.Created ++ [K]
                 Variants := StdMap.set V.Variants K V.Created.length }) := by
  simp [getOrCreateVariant, StdMap.count, h, createVariant]

theorem getOrCreateVariant_find_self {κ : Type} [DecidableEq κ] (V : VariantFunction κ) (K : κ) :
    StdMap.find (getOrCreateVariant V K).2.Variants K = some (getOrCreateVariant V K).1 := by
  cases h : StdMap.find V.Variants K with
  | none => rw [getOrCreateVariant_miss V K h]; exact StdMap.find_set_self _ _ _
  | some v => rw [getOrCreateVariant_hit V K v h]; exact h

theorem getOrCreateVariant_keeps {κ : Type} [DecidableEq κ] (V : VariantFunction κ) (K K0 : κ)
    (v : FunctionPtr) (h0 : StdMap.find V.Variants K0 = some v) :
    StdMap.find (getOrCreateVariant V K).2.Variants K0 = some v := by
  cases h : StdMap.find V.Variants K with
  | none =>
    rw [getOrCreateVariant_miss V K h]
    have hne : K0 ≠ K := by
      intro e
      rw [e, h] at h0
      exact Option.noConfusion h0
    rw [← h0]
    exact StdMap.find_set_other _ _ _ _ hne
  | some w => rw [getOrCreateVariant_hit V K w h]; exact h0

theorem dispatchAll_keeps {κ : Type} [DecidableEq κ] (Ks : List κ) (V : VariantFunction κ)
    (K0 : κ) (v : FunctionPtr) (h0 : StdMap.find V.Variants K0 = some v) :
    StdMap.find (dispatchAll V Ks).Variants K0 = some v := by
  induction Ks generalizing V with
  | nil => exact h0
  | cons K rest ih =>
    unfold dispatchAll
    rw [List.foldl_cons]
    exact ih _ (getOrCreateVariant_keeps V K K0 v h0)

theorem StdMap.find_none_of_count {κ ν : Type} [DecidableEq κ] (M : StdMap κ ν) (K : κ)
    (h : StdMap.count M K = false) : StdMap.find M K = none := by
  simpa [StdMap.count] using h

/-! ## C7: memoization -/

/-- C7: when `K` is not cached, `getOrCreateVariant(K)` calls `createVariant`
exactly once (for `K`); after any further calls, `getOrCreateVariant(K)`
returns the identical variant and calls `createVariant` not at all. -/
theorem C7_cache_memoization {κ : Type} [DecidableEq κ] (V : VariantFunction κ) (K : κ)
    (Ks : List κ) (hmiss : StdMap.count V.Variants K = false) :
    (getOrCreateVariant V K).2.Created = V.Created ++ [K] ∧
    (getOrCreateVariant (dispatchAll (getOrCreateVariant V K).2 Ks) K).1 =
      (getOrCreateVariant V K).1 ∧
    (getOrCreateVariant (dispatchAll (getOrCreateVariant V K).2 Ks) K).2.Created =
      (dispatchAll (getOrCreateVariant V K).2 Ks).Created := by
  have hnone := StdMap.find_none_of_count _ _ hmiss
  have hlater := dispatchAll_keeps Ks _ K _ (getOrCreateVariant_find_self V K)
  refine ⟨?_, ?_, ?_⟩
  · rw [getOrCreateVariant_miss V K hnone]
  · rw [getOrCreateVariant_hit _ K _ hlater]
  · rw [getOrCreateVariant_hit _ K _ hlater]

/-- C7 on the empty cache: the key `(5, 1)` is dispatched, then `(5, 2)`, then
`(5, 1)` again; the last call returns variant `0`, the one created by the
first, and two variants exist. -/
theorem C7_cache_memoization_witness :
    (getOrCreateVariant (VariantFunction.init CacheKey 5) ⟨5, 1⟩).2.Created = [⟨5, 1⟩] ∧
    (getOrCreateVariant (dispatchAll
      (getOrCreateVariant (VariantFunction.init CacheKey 5) ⟨5, 1⟩).2 [⟨5, 2⟩]) ⟨5, 1⟩).1 = 0 ∧
    (getOrCreateVariant (dispatchAll
      (getOrCreateVariant (VariantFunction.init CacheKey 5) ⟨5, 1⟩).2 [⟨5, 2⟩]) ⟨5, 1⟩).2.Created
      = [⟨5, 1⟩, ⟨5, 2⟩] :=
  ⟨(C7_cache_memoization (VariantFunction.init CacheKey 5) ⟨5, 1⟩ [⟨5, 2⟩] rfl).1,
   by decide, by decide⟩

/-! ## C8: no eviction -/

/-- C8: over every sequence of `getOrCreateVariant` calls a cached key stays
cached and mapped to the same variant; a hit returns the object unchanged; a
miss appends exactly the entry of the requested key, mapped to the variant
returned, and the lookup of every other key is as before. -/
theorem C8_cache_never_evicted {κ : Type} [DecidableEq κ] (V : VariantFunction κ) (K : κ)
    (Ks : List κ) :
    (∀ (K0 : κ) (v : FunctionPtr), StdMap.find V.Variants K0 = some v →
      StdMap.find (dispatchAll V Ks).Variants K0 = some v) ∧
    (StdMap.count V.Variants K = true → (getOrCreateVariant V K).2 = V) ∧
    (StdMap.count V.Variants K = false →
      (getOrCreateVariant V K).2.Variants = V.Variants ++ [(K, (getOrCreateVariant V K).1)] ∧
      StdMap.find (getOrCreateVariant V K).2.Variants K = some (getOrCreateVariant V K).1 ∧
      ∀ K0 : κ, K0 ≠ K →
        StdMap.find (getOrCreateVariant V K).2.Variants K0 = StdMap.find V.Variants K0) := by
  refine ⟨fun K0 v h0 => dispatchAll_keeps Ks V K0 v h0, ?_, ?_⟩
  · intro hhit
    cases h : StdMap.find V.Variants K with
    | none => simp [StdMap.count, h] at hhit
    | some v => rw [getOrCreateVariant_hit V K v h]
  · intro hmiss
    have hnone := StdMap.find_none_of_count _ _ hmiss
    refine ⟨?_, getOrCreateVariant_find_self V K, ?_⟩
    · rw [getOrCreateVariant_miss V K hnone]
      exact StdMap.set_of_find_none _ _ _ hnone
    · intro K0 hne
      rw [getOrCreateVariant_miss V K hnone]
      exact StdMap.find_set_other _ _ _ _ hne

/-! ## C9: equality and order of `CacheKey` -/

/-- C9: `operator==` holds exactly when both `IR` and `ValueHash` are equal,
that is when the keys are equal; `operator<` is the lexicographic order on
`(IR, ValueHash)`; it is irreflexive and transitive, and of `a < b`, `a == b`,
`b < a` exactly one holds. -/
theorem C9_cachekey_structural_order (a b c : CacheKey) :
    (CacheKey.eq a b = true ↔ a.IR = b.IR ∧ a.ValueHash = b.ValueHash) ∧
    (CacheKey.eq a b = true ↔ a = b) ∧
    (CacheKey.lt a b = true ↔
      Prod.Lex (fun x y : Nat => x < y) (fun x y : Nat => x < y)
        (a.IR, a.ValueHash) (b.IR, b.ValueHash)) ∧
    CacheKey.lt a a = false ∧
    (CacheKey.lt a b = true → CacheKey.lt b c = true → CacheKey.lt a c = true) ∧
    ((CacheKey.lt a b = true ∧ CacheKey.eq a b = false ∧ CacheKey.lt b a = false) ∨
     (CacheKey.lt a b = false ∧ CacheKey.eq a b = true ∧ CacheKey.lt b a = false) ∨
     (CacheKey.lt a b = false ∧ CacheKey.eq a b = false ∧ CacheKey.lt b a = true)) := by
  obtain ⟨a1, a2⟩ := a
  obtain ⟨b1, b2⟩ := b
  obtain ⟨c1, c2⟩ := c
  refine ⟨?_, ?_, ?_, ?_, ?_, ?_⟩
  · simp [CacheKey.eq]
  · simp [CacheKey.eq]
  · simp [CacheKey.lt, Prod.lex_def]
  · simp [CacheKey.lt]
  · simp only [CacheKey.lt, Bool.or_eq_true, Bool.and_eq_true, decide_eq_true_eq]
    omega
  · simp only [CacheKey.lt, CacheKey.eq, Bool.or_eq_true, Bool.and_eq_true, decide_eq_true_eq,
      Bool.or_eq_false_iff, Bool.and_eq_false_iff, decide_eq_false_iff_not]
    omega

/-! ## C10: key sensitivity -/

/-- C10, as stated, fails: no value hash into a 64-bit `size_t` gives distinct
keys to all pairs of different vectors of 64-bit argument values of one unit.
With the exclusive-or hash the argument vectors `[1, 2]` and `[2, 1]` of unit
`5` get the same key, the second dispatch is a cache hit that returns the
variant of the first, and one variant is created in all. -/
theorem C10_counterexample :
    (¬ ∃ hashValues : List Nat → Nat,
      (∀ Values, hashValues Values < 2 ^ 64) ∧
      ∀ Vs Ws : List Nat, (∀ x ∈ Vs, x < 2 ^ 64) → (∀ x ∈ Ws, x < 2 ^ 64) → Vs ≠ Ws →
        dispatchKey hashValues 0 Vs ≠ dispatchKey hashValues 0 Ws) ∧
    dispatchKey xorValues 5 [1, 2] = dispatchKey xorValues 5 [2, 1] ∧
    (getOrCreateVariant (getOrCreateVariant (VariantFunction.init CacheKey 5)
        (dispatchKey xorValues 5 [1, 2])).2 (dispatchKey xorValues 5 [2, 1])).1 =
      (getOrCreateVariant (VariantFunction.init CacheKey 5)
        (dispatchKey xorValues 5 [1, 2])).1 ∧
    (getOrCreateVariant (getOrCreateVariant (VariantFunction.init CacheKey 5)
        (dispatchKey xorValues 5 [1, 2])).2 (dispatchKey xorValues 5 [2, 1])).2.Created =
      [dispatchKey xorValues 5 [1, 2]] := by
  refine ⟨?_, by decide, by decide, by decide⟩
  rintro ⟨h, hlt, hinj⟩
  let f : Fin (2 ^ 64) × Fin (2 ^ 64) → Fin (2 ^ 64) :=
    fun p => ⟨h [p.1.val, p.2.val], hlt _⟩
  have hf : Function.Injective f := by
    intro p q hpq
    by_contra hne
    have hlist : [p.1.val, p.2.val] ≠ [q.1.val, q.2.val] := by
      intro e
      apply hne
      simp only [List.cons.injEq, and_true] at e
      exact Prod.ext (Fin.ext e.1) (Fin.ext e.2)
    apply hinj [p.1.val, p.2.val] [q.1.val, q.2.val] _ _ hlist
    · have := congrArg Fin.val hpq
      simp only [f] at this
      simp [dispatchKey, this]
    · intro x hx
      simp only [List.mem_cons, List.mem_singleton, List.not_mem_nil, or_false] at hx
      rcases hx with rfl | rfl
      · exact p.1.isLt
      · exact p.2.isLt
    · intro x hx
      simp only [List.mem_cons, List.mem_singleton, List.not_mem_nil, or_false] at hx
      rcases hx with rfl | rfl
      · exact q.1.isLt
      · exact q.2.isLt
  have hcard := Fintype.card_le_of_injective f hf
  simp only [Fintype.card_prod, Fintype.card_fin] at hcard
  have : (2 : Nat) ^ 64 * 2 ^ 64 > 2 ^ 64 := by norm_num
  omega

/-- C10, amended: for the same unit, dispatching with two argument vectors
whose value hashes differ produces two distinct keys; when neither key is
cached, `getOrCreateVariant` creates a variant for each, the two variants are
distinct, and both keys are mapped to their variants in the cache afterwards. -/
theorem C10_key_sensitivity_for_distinct_hashes (hashValues : List Nat → Nat) (IR : Nat)
    (Vs Ws : List Nat) (V : VariantFunction CacheKey)
    (hhash : hashValues Vs ≠ hashValues Ws)
    (hmissV : StdMap.count V.Variants (dispatchKey hashValues IR Vs) = false)
    (hmissW : StdMap.count V.Variants (dispatchKey hashValues IR Ws) = false) :
    dispatchKey hashValues IR Vs ≠ dispatchKey hashValues IR Ws ∧
    (getOrCreateVariant V (dispatchKey hashValues IR Vs)).1 ≠
      (getOrCreateVariant (getOrCreateVariant V (dispatchKey hashValues IR Vs)).2
        (dispatchKey hashValues IR Ws)).1 ∧
    (getOrCreateVariant (getOrCreateVariant V (dispatchKey hashValues IR Vs)).2
        (dispatchKey hashValues IR Ws)).2.Created =
      V.Created ++ [dispatchKey hashValues IR Vs, dispatchKey hashValues IR Ws] ∧
    StdMap.find (getOrCreateVariant (getOrCreateVariant V (dispatchKey hashValues IR Vs)).2
        (dispatchKey hashValues IR Ws)).2.Variants (dispatchKey hashValues IR Vs) =
      some (getOrCreateVariant V (dispatchKey hashValues IR Vs)).1 ∧
    StdMap.find (getOrCreateVariant (getOrCreateVariant V (dispatchKey hashValues IR Vs)).2
        (dispatchKey hashValues IR Ws)).2.Variants (dispatchKey hashValues IR Ws) =
      some (getOrCreateVariant (getOrCreateVariant V (dispatchKey hashValues IR Vs)).2
        (dispatchKey hashValues IR Ws)).1 := by
  have hkey : dispatchKey hashValues IR Vs ≠ dispatchKey hashValues IR Ws := by
    intro e
    apply hhash
    simpa [dispatchKey] using e
  have hV := StdMap.find_none_of_count _ _ hmissV
  have hW := StdMap.find_none_of_count _ _ hmissW
  have hW1 : StdMap.find (getOrCreateVariant V (dispatchKey hashValues IR Vs)).2.Variants
      (dispatchKey hashValues IR Ws) = none := by
    rw [getOrCreateVariant_miss V _ hV]
    rw [← hW]
    exact StdMap.find_set_other _ _ _ _ (fun e => hkey e.symm)
  refine ⟨hkey, ?_, ?_, ?_, getOrCreateVariant_find_self _ _⟩
  · rw [getOrCreateVariant_miss _ _ hW1, getOrCreateVariant_miss V _ hV]
    simp
  · rw [getOrCreateVariant_miss _ _ hW1, getOrCreateVariant_miss V _ hV]
    simp
  · exact getOrCreateVariant_keeps _ _ _ _ (getOrCreateVariant_find_self V _)

/-- C10, amended, on the empty cache of unit `5` with the exclusive-or hash:
the arguments `[1]` and then `[2]` give the keys `(5, 1)` and `(5, 2)` and the
variants `0` and `1`. -/
theorem C10_key_sensitivity_for_distinct_hashes_witness :
    xorValues [1] ≠ xorValues [2] ∧
    (getOrCreateVariant (getOrCreateVariant (VariantFunction.init CacheKey 5)
        (dispatchKey xorValues 5 [1])).2 (dispatchKey xorValues 5 [2])).2.Variants =
      [(⟨5, 1⟩, 0), (⟨5, 2⟩, 1)] ∧
    dispatchKey xorValues 5 [1] ≠ dispatchKey xorValues 5 [2] :=
  ⟨by decide, by decide,
   (C10_key_sensitivity_for_distinct_hashes xorValues 5 [1] [2]
      (VariantFunction.init CacheKey 5) (by decide) rfl rfl).1⟩

/-! ## Properties of `getRuntimeParameters` -/

theorem getRuntimeParametersLoop_eq (params : Nat → Nat) (Args : List Argument) (i : Nat)
    (st : List Param × List Nat) :
    getRuntimeParametersLoop params Args i st =
      (st.1 ++ (Args.enumFrom i).filterMap (paramOfFormal params),
       st.2 ++ (Args.enumFrom i).filterMap integerPosition) := by
  induction Args generalizing i st with
  | nil => simp [getRuntimeParametersLoop]
  | cons A rest ih =>
    rw [getRuntimeParametersLoop]
    cases hty : A.Ty <;>
      simp [ih, List.enumFrom, paramOfFormal, integerPosition, hty, List.filterMap_cons]

/-! ## C11: the run-time parameters of the integer formals -/

/-- C11: `getRuntimeParameters` keeps the entries of `ParamV` and appends, in
the order of the formals, one `Param` for every formal of integer type, with
the type and the name of the formal and the constant made of the value read
from the slot at the position of the formal among all formals; a formal of
another type adds nothing and still takes up its position. -/
theorem C11_getRuntimeParameters_appends_integer_formals (F : ModuleFunction) (paramc : Nat)
    (params : Nat → Nat) (ParamV : List Param) :
    (getRuntimeParameters F paramc params ParamV).1 =
      ParamV ++ F.Args.enum.filterMap (fun p =>
        match p.2.Ty with
        | IRType.Integer BitWidth =>
          some { Ty := p.2.Ty, Name := p.2.Name,
                 Val := some (ConstantInt.get BitWidth (params p.1 % 2 ^ 64)) }
        | _ => none) := by
  unfold getRuntimeParameters
  rw [getRuntimeParametersLoop_eq]
  rfl

/-! ## C12: the slots `getRuntimeParameters` reads -/

/-- C12, as stated, fails: for the unit `test(i32 %n)` and `paramc = 0` the
function reads slot `0`, an index that is not below `paramc`. -/
theorem C12_counterexample :
    (getRuntimeParameters unitTest 0 slotsFrom10 []).2 = [0] ∧
    ¬ (∀ r ∈ (getRuntimeParameters unitTest 0 slotsFrom10 []).2, r < 0) := by
  decide

/-- C12, amended: for every unit and every `paramc`, also one below the
number of formals, `getRuntimeParameters` reads exactly the slots at the
positions of the formals of integer type, each position below the number of
formals; when `paramc` is at least the number of formals it reads no slot
whose index is `paramc` or more. -/
theorem C12_reads_positions_of_integer_formals (F : ModuleFunction) (paramc : Nat)
    (params : Nat → Nat) (ParamV : List Param) :
    (getRuntimeParameters F paramc params ParamV).2 =
      F.Args.enum.filterMap integerPosition ∧
    (∀ r ∈ (getRuntimeParameters F paramc params ParamV).2, r < F.Args.length) ∧
    (F.Args.length ≤ paramc →
      ∀ r ∈ (getRuntimeParameters F paramc params ParamV).2, r < paramc) := by
  have hreads : (getRuntimeParameters F paramc params ParamV).2 =
      F.Args.enum.filterMap integerPosition := by
    unfold getRuntimeParameters
    rw [getRuntimeParametersLoop_eq]
    rfl
  have hlt : ∀ r ∈ (getRuntimeParameters F paramc params ParamV).2, r < F.Args.length := by
    intro r hr
    rw [hreads, List.mem_filterMap] at hr
    obtain ⟨p, hp, hpos⟩ := hr
    have hidx : p.1 < F.Args.length := by
      have := List.fst_lt_of_mem_enum hp
      exact this
    unfold integerPosition at hpos
    split at hpos
    · simp only [Option.some.injEq] at hpos
      omega
    · exact absurd hpos (by simp)
  exact ⟨hreads, hlt, fun hparamc r hr => Nat.lt_of_lt_of_le (hlt r hr) hparamc⟩

/-- C12, amended, at the unit `mixed(i32 %n, double %x, i64 %m)`: called with
`paramc = 3` the slots read are `0` and `2`, both below `paramc`; called with
`paramc = 1` they are `0` and `2` as well, both below the number of formals. -/
theorem C12_reads_positions_of_integer_formals_witness :
    (getRuntimeParameters unitMixed 3 slotsFrom10 []).2 = [0, 2] ∧
    (∀ r ∈ (getRuntimeParameters unitMixed 3 slotsFrom10 []).2, r < 3) ∧
    (getRuntimeParameters unitMixed 1 slotsFrom10 []).2 = [0, 2] ∧
    (∀ r ∈ (getRuntimeParameters unitMixed 1 slotsFrom10 []).2, r < unitMixed.Args.length) :=
  ⟨by decide,
   (C12_reads_positions_of_integer_formals unitMixed 3 slotsFrom10 []).2.2 (by decide),
   by decide,
   (C12_reads_positions_of_integer_formals unitMixed 1 slotsFrom10 []).2.1⟩

/-! ## C13: specialization replaces the uses of the formals -/

/-- C13, as stated, fails: for the unit `pair(i32, i32)` with two unnamed
formals and the slot values `10` and `11`, both run-time parameters carry the
empty name, `getArgument` finds the first formal for both, and after `Apply`
the use of the second formal is still in the body. -/
theorem C13_counterexample :
    (getRuntimeParameters unitUnnamed 2 slotsFrom10 []).1 =
      [{ Ty := IRType.Integer 32, Name := "", Val := some ⟨32, 10⟩ },
       { Ty := IRType.Integer 32, Name := "", Val := some ⟨32, 11⟩ }] ∧
    Apply (getRuntimeParameters unitUnnamed 2 slotsFrom10 []).1 unitUnnamed variantTarget
      (CreateUnpackParamsO2 unitUnnamed) [Value.Load 0, Value.Load 1] =
      some [Value.Constant ⟨32, 10⟩, Value.Load 1] := by
  decide

theorem specializeUseFrom_zero (From : ModuleFunction) (params : Nat → Nat) (V : Value) :
    specializeUseFrom From params 0 V = specializeUse From params V := by
  cases V <;> simp [specializeUseFrom, specializeUse]

theorem specializeUse_load_of_integer (From : ModuleFunction) (params : Nat → Nat) (k : Nat)
    (A : Argument) (w : Nat) (hget : From.Args.get? k = some A) (hty : A.Ty = IRType.Integer w) :
    specializeUse From params (Value.Load k) =
      Value.Constant (ConstantInt.get w (params k % 2 ^ 64)) := by
  simp only [specializeUse, hget, hty]

theorem specializeUse_load_cases (From : ModuleFunction) (params : Nat → Nat) (j : Nat) :
    specializeUse From params (Value.Load j) = Value.Load j ∨
    ∃ c, specializeUse From params (Value.Load j) = Value.Constant c := by
  simp only [specializeUse]
  cases From.Args.get? j with
  | none => exact Or.inl rfl
  | some A =>
    cases hty : A.Ty with
    | Integer w => exact Or.inr ⟨ConstantInt.get w (params j % 2 ^ 64), by simp only [hty]⟩
    | Pointer => exact Or.inl (by simp only [hty])
    | FloatingPoint => exact Or.inl (by simp only [hty])

theorem ApplyLoop_from_position (From To : ModuleFunction) (params : Nat → Nat)
    (hdistinct : From.Addr ≠ To.Addr)
    (hnames : ∀ (i : Nat) (A : Argument), From.Args.get? i = some A →
      (∃ w, A.Ty = IRType.Integer w) → getArgument From A.Name = i) :
    ∀ (args : List Argument) (k : Nat) (Body : List Value), From.Args.drop k = args →
      ApplyLoop From To (CreateUnpackParamsO2 From)
        ((args.enumFrom k).filterMap (paramOfFormal params)) Body =
      some (Body.map (specializeUseFrom From params k)) := by
  intro args
  induction args with
  | nil =>
    intro k Body hdrop
    have hlen : From.Args.length ≤ k := List.drop_eq_nil_iff.1 hdrop
    simp only [List.enumFrom, List.filterMap_nil, ApplyLoop]
    congr 1
    symm
    conv_rhs => rw [← List.map_id Body]
    apply List.map_congr_left
    intro V _
    cases V with
    | Load j =>
      simp only [specializeUseFrom, id]
      split
      next hkj =>
        have hnone : From.Args.get? j = none := List.get?_eq_none.2 (by omega)
        simp only [specializeUse, hnone]
      next => rfl
    | Constant c => rfl
    | Instruction n => rfl
  | cons A rest ih =>
    intro k Body hdrop
    have hget : From.Args.get? k = some A := by
      have h := List.head?_drop From.Args k
      rw [hdrop] at h
      simpa using h.symm
    have hk : k < From.Args.length := by
      by_contra hge
      have hnone : From.Args.get? k = none := List.get?_eq_none.2 (by omega)
      rw [hnone] at hget
      exact Option.noConfusion hget
    have hdrop1 : From.Args.drop (k + 1) = rest := by
      have h := List.tail_drop From.Args k
      rw [hdrop] at h
      simpa using h.symm
    simp only [List.enumFrom]
    cases hty : A.Ty with
    | Integer w =>
      have hP : paramOfFormal params (k, A) =
          some { Ty := A.Ty, Name := A.Name,
                 Val := some (ConstantInt.get w (params k % 2 ^ 64)) } := by
        simp [paramOfFormal, hty]
      rw [List.filterMap_cons_some hP, ApplyLoop]
      have harg : getArgument From A.Name = k := hnames k A hget ⟨w, hty⟩
      have hvmap : CreateUnpackParamsO2 From k = some (Value.Load k) := by
        simp [CreateUnpackParamsO2, hk]
      simp only [harg, hdistinct, false_and, if_false, hk, if_true, hvmap, Value.isConstant,
        Bool.false_eq_true]
      rw [ih (k + 1) _ hdrop1, replaceAllUsesWith, List.map_map]
      congr 1
      apply List.map_congr_left
      intro V _
      cases V with
      | Load j =>
        by_cases hj : j = k
        · subst hj
          simp [specializeUseFrom, specializeUse_load_of_integer From params j A w hget hty]
        · have h1 : (k + 1 ≤ j) ↔ (k ≤ j) := by omega
          simp [specializeUseFrom, hj, h1]
      | Constant c => simp [specializeUseFrom]
      | Instruction n => simp [specializeUseFrom]
    | Pointer =>
      have hP : paramOfFormal params (k, A) = none := by simp [paramOfFormal, hty]
      rw [List.filterMap_cons_none hP, ih (k + 1) Body hdrop1]
      congr 1
      apply List.map_congr_left
      intro V _
      cases V with
      | Load j =>
        by_cases hj : j = k
        · subst hj
          simp only [specializeUseFrom, specializeUse, hget, hty, Nat.le_refl, if_true,
            Nat.not_succ_le_self, if_false]
        · have h1 : (k + 1 ≤ j) ↔ (k ≤ j) := by omega
          simp [specializeUseFrom, h1]
      | Constant c => rfl
      | Instruction n => rfl
    | FloatingPoint =>
      have hP : paramOfFormal params (k, A) = none := by simp [paramOfFormal, hty]
      rw [List.filterMap_cons_none hP, ih (k + 1) Body hdrop1]
      congr 1
      apply List.map_congr_left
      intro V _
      cases V with
      | Load j =>
        by_cases hj : j = k
        · subst hj
          simp only [specializeUseFrom, specializeUse, hget, hty, Nat.le_refl, if_true,
            Nat.not_succ_le_self, if_false]
        · have h1 : (k + 1 ≤ j) ↔ (k ≤ j) := by omega
          simp [specializeUseFrom, h1]
      | Constant c => rfl
      | Instruction n => rfl

/-- C13, amended: when the variant is built into a function other than the
source and every formal of integer type is the first formal of the source with
its declared name (so whenever the declared names are pairwise distinct),
`Apply` with the run-time parameters reconstructed for the source replaces
every use of a formal of integer type by the constant read for it, changes no
other use, and leaves no use of such a formal in the variant. -/
theorem C13_apply_replaces_uses_of_named_formals (From To : ModuleFunction) (paramc : Nat)
    (params : Nat → Nat) (Body : List Value)
    (hdistinct : From.Addr ≠ To.Addr)
    (hnames : ∀ (i : Nat) (A : Argument), From.Args.get? i = some A →
      (∃ w, A.Ty = IRType.Integer w) → getArgument From A.Name = i) :
    Apply (getRuntimeParameters From paramc params []).1 From To (CreateUnpackParamsO2 From)
      Body = some (Body.map (specializeUse From params)) ∧
    (∀ (i : Nat) (A : Argument) (w : Nat), From.Args.get? i = some A →
      A.Ty = IRType.Integer w → Value.Load i ∉ Body.map (specializeUse From params)) := by
  constructor
  · unfold Apply getRuntimeParameters
    rw [getRuntimeParametersLoop_eq]
    simp only [List.nil_append]
    rw [ApplyLoop_from_position From To params hdistinct hnames From.Args 0 Body rfl]
    congr 1
    apply List.map_congr_left
    intro V _
    exact specializeUseFrom_zero From params V
  · intro i A w hget hty hmem
    rw [List.mem_map] at hmem
    obtain ⟨V, _, hV⟩ := hmem
    cases V with
    | Load j =>
      by_cases hj : j = i
      · subst hj
        rw [specializeUse_load_of_integer From params j A w hget hty] at hV
        exact Value.noConfusion hV
      · rcases specializeUse_load_cases From params j with h | ⟨c, h⟩
        · rw [h] at hV
          exact hj (Value.Load.inj hV)
        · rw [h] at hV
          exact Value.noConfusion hV
    | Constant c => simp [specializeUse] at hV
    | Instruction n => simp [specializeUse] at hV

/-- C13, amended, at the unit `mixed(i32 %n, double %x, i64 %m)` with the slot
values `10, 11, 12`: the uses of `%n` and `%m` become the constants `10` and
`12`, the use of `%x` stays. -/
theorem C13_apply_replaces_uses_of_named_formals_witness :
    Apply (getRuntimeParameters unitMixed 3 slotsFrom10 []).1 unitMixed variantTarget
      (CreateUnpackParamsO2 unitMixed)
      [Value.Load 0, Value.Load 1, Value.Load 2, Value.Load 0] =
      some [Value.Constant ⟨32, 10⟩, Value.Load 1, Value.Constant ⟨64, 12⟩,
        Value.Constant ⟨32, 10⟩] :=
  (C13_apply_replaces_uses_of_named_formals unitMixed variantTarget 3 slotsFrom10
    [Value.Load 0, Value.Load 1, Value.Load 2, Value.Load 0] (by decide)
    (by
      intro i A hget _
      match i, hget with
      | 0, hget => simp [unitMixed] at hget; subst hget; decide
      | 1, hget => simp [unitMixed] at hget; subst hget; decide
      | 2, hget => simp [unitMixed] at hget; subst hget; decide
      | n + 3, hget => simp [unitMixed] at hget)).1.trans (by decide)

/-! ## Properties of the names of the extracted units -/

theorem digitChar_facts : ∀ d, d < 10 →
    (Nat.digitChar d).isDigit = true ∧ digitValue (Nat.digitChar d) = d := by
  decide

theorem toDigitsCore_foldl (fuel : Nat) : ∀ (n : Nat) (acc : List Char), n < fuel →
    (Nat.toDigitsCore 10 fuel n acc).foldl (fun a c => 10 * a + digitValue c) 0 =
      acc.foldl (fun a c => 10 * a + digitValue c) n := by
  induction fuel with
  | zero => intro n acc h; omega
  | succ fuel ih =>
    intro n acc h
    rw [Nat.toDigitsCore]
    have hd := (digitChar_facts (n % 10) (Nat.mod_lt _ (by decide))).2
    split
    next h0 =>
      simp only [List.foldl_cons, hd]
      congr 1
      omega
    next h0 =>
      rw [ih (n / 10) _ (by omega)]
      simp only [List.foldl_cons, hd]
      congr 1
      omega

theorem toDigitsCore_isDigit (fuel : Nat) : ∀ (n : Nat) (acc : List Char),
    (∀ c ∈ acc, c.isDigit = true) → ∀ c ∈ Nat.toDigitsCore 10 fuel n acc, c.isDigit = true := by
  induction fuel with
  | zero => intro n acc h; simpa [Nat.toDigitsCore] using h
  | succ fuel ih =>
    intro n acc h
    rw [Nat.toDigitsCore]
    have hd := (digitChar_facts (n % 10) (Nat.mod_lt _ (by decide))).1
    have hacc : ∀ c ∈ (n % 10).digitChar :: acc, c.isDigit = true := by
      intro c hc
      rcases List.mem_cons.1 hc with rfl | hc
      · exact hd
      · exact h c hc
    split
    · exact hacc
    · exact ih _ _ hacc

theorem ordinalSuffix_scop (Base : String) (i : Nat) :
    ordinalSuffix (Base ++ ".scop" ++ toString i) = i := by
  have hdata : (Base ++ ".scop" ++ toString i).data =
      Base.data ++ (['.', 's', 'c', 'o', 'p'] ++ Nat.toDigits 10 i) := by
    simp only [String.data_append, List.append_assoc]
    rfl
  have hdig : ∀ c ∈ (Nat.toDigits 10 i).reverse, c.isDigit = true := by
    intro c hc
    exact toDigitsCore_isDigit _ _ _ (by simp) c (List.mem_reverse.1 hc)
  unfold ordinalSuffix
  rw [hdata]
  simp only [List.reverse_append, List.append_assoc]
  rw [List.takeWhile_append_of_pos hdig]
  have hp : List.takeWhile Char.isDigit
      (['.', 's', 'c', 'o', 'p'].reverse ++ Base.data.reverse) = [] := by
    simp only [List.reverse_cons, List.reverse_nil, List.nil_append, List.cons_append,
      List.singleton_append]
    rw [List.takeWhile_cons_of_neg (by decide)]
  rw [hp, List.append_nil, List.reverse_reverse]
  unfold decimalValue Nat.toDigits
  rw [toDigitsCore_foldl _ _ _ (Nat.lt_succ_self i)]
  rfl

theorem scopNames_ordinals (Units : List (FunctionPtr × String)) (i : Nat) :
    (scopNames Units i).map (fun u => ordinalSuffix u.2) = List.range' i Units.length := by
  induction Units generalizing i with
  | nil => rfl
  | cons u rest ih =>
    obtain ⟨F, Name⟩ := u
    simp only [scopNames, List.map_cons, ordinalSuffix_scop, ih, List.length_cons, List.range'_succ]

theorem scopNames_nodup (Units : List (FunctionPtr × String)) (i : Nat) :
    ((scopNames Units i).map Prod.snd).Nodup := by
  have h : (((scopNames Units i).map Prod.snd).map ordinalSuffix).Nodup := by
    rw [List.map_map]
    have := scopNames_ordinals Units i
    simp only [Function.comp_def]
    rw [this]
    exact List.nodup_range' _ _
  exact List.Nodup.of_map _ h

/-! ## Properties of `ScopMapper::runOnFunction` -/

theorem extractLoop_names (Jit : List (RegionPtr × Extraction)) (i : Nat) (SM : ScopMapper) :
    (ScopMapper.extractLoop Jit i SM).SetNameCalls = SM.SetNameCalls ++ scopNames (extractedUnits Jit) i := by
  induction Jit generalizing i SM with
  | nil => simp [ScopMapper.extractLoop, extractedUnits, scopNames]
  | cons e rest ih =>
    obtain ⟨R, E⟩ := e
    cases E with
    | NotEligible => simp only [ScopMapper.extractLoop, extractedUnits, ih]
    | Failed => simp only [ScopMapper.extractLoop, extractedUnits, ih]
    | Extracted f n =>
      simp only [ScopMapper.extractLoop, extractedUnits, ih, scopNames, List.append_assoc,
        List.singleton_append]

theorem extractLoop_created_mem (Jit : List (RegionPtr × Extraction)) (i : Nat) (SM : ScopMapper)
    (x : FunctionPtr) :
    x ∈ (ScopMapper.extractLoop Jit i SM).CreatedFunctions ↔
      x ∈ SM.CreatedFunctions ∨ x ∈ (extractedUnits Jit).map Prod.fst := by
  induction Jit generalizing i SM with
  | nil => simp [ScopMapper.extractLoop, extractedUnits]
  | cons e rest ih =>
    obtain ⟨R, E⟩ := e
    cases E with
    | NotEligible => simp only [ScopMapper.extractLoop, extractedUnits, ih]
    | Failed => simp only [ScopMapper.extractLoop, extractedUnits, ih]
    | Extracted f n =>
      simp only [ScopMapper.extractLoop, extractedUnits, ih, List.map_cons, List.mem_cons]
      have hins : x ∈ insertFunction SM.CreatedFunctions f ↔ x ∈ SM.CreatedFunctions ∨ x = f := by
        unfold insertFunction
        split
        next hf =>
          constructor
          · exact Or.inl
          · rintro (h | h)
            · exact h
            · exact h ▸ hf
        next => simp
      rw [hins]
      tauto

theorem extractLoop_created_fresh (Jit : List (RegionPtr × Extraction)) (i : Nat)
    (SM : ScopMapper)
    (hfresh : (SM.CreatedFunctions ++ (extractedUnits Jit).map Prod.fst).Nodup) :
    (ScopMapper.extractLoop Jit i SM).CreatedFunctions =
      SM.CreatedFunctions ++ (extractedUnits Jit).map Prod.fst := by
  induction Jit generalizing i SM with
  | nil => simp [ScopMapper.extractLoop, extractedUnits]
  | cons e rest ih =>
    obtain ⟨R, E⟩ := e
    cases E with
    | NotEligible => exact ih i SM hfresh
    | Failed => exact ih i SM hfresh
    | Extracted f n =>
      simp only [extractedUnits, List.map_cons] at hfresh
      have hnot : f ∉ SM.CreatedFunctions := by
        intro hf
        have := List.nodup_append.1 hfresh
        exact this.2.2 hf (List.mem_cons_self _ _) 
      have hins : insertFunction SM.CreatedFunctions f = SM.CreatedFunctions ++ [f] := by
        simp [insertFunction, hnot]
      simp only [ScopMapper.extractLoop, extractedUnits, List.map_cons]
      rw [ih]
      · simp only [hins, List.append_assoc, List.singleton_append]
      · simp only [hins, List.append_assoc, List.singleton_append]
        exact hfresh

theorem extractLoop_of_nothing_extracted (Jit : List (RegionPtr × Extraction)) (i : Nat)
    (SM : ScopMapper) (hnone : extractedUnits Jit = []) :
    ScopMapper.extractLoop Jit i SM = SM := by
  induction Jit generalizing i SM with
  | nil => rfl
  | cons e rest ih =>
    obtain ⟨R, E⟩ := e
    cases E with
    | NotEligible => exact ih i SM hnone
    | Failed => exact ih i SM hnone
    | Extracted f n => simp [extractedUnits] at hnone

theorem scopNames_eq_enum (Units : List (FunctionPtr × String)) (i : Nat) :
    scopNames Units i =
      (Units.enumFrom i).map (fun p => (p.2.1, p.2.2 ++ ".scop" ++ toString p.1)) := by
  induction Units generalizing i with
  | nil => rfl
  | cons u rest ih =>
    obtain ⟨F, Name⟩ := u
    simp only [scopNames, List.enumFrom, List.map_cons, ih]

theorem mem_extractedUnits (Jit : List (RegionPtr × Extraction)) (R : RegionPtr)
    (f : FunctionPtr) (n : String) (h : (R, Extraction.Extracted f n) ∈ Jit) :
    (f, n) ∈ extractedUnits Jit := by
  induction Jit with
  | nil => simp at h
  | cons e rest ih =>
    obtain ⟨R', E⟩ := e
    rcases List.mem_cons.1 h with heq | hrest
    · cases heq
      simp [extractedUnits]
    · cases E with
      | NotEligible => exact ih hrest
      | Failed => exact ih hrest
      | Extracted f' n' => exact List.mem_cons_of_mem _ (ih hrest)

/-! ## C14: a unit created by the mapper is skipped -/

/-- C14: `ScopMapper::runOnFunction` on a function that is a member of
`CreatedFunctions` returns `false` and leaves the mapper as it is: nothing is
extracted, named or inserted. -/
theorem C14_created_function_is_skipped (SM : ScopMapper) (F : FunctionPtr)
    (Jit : List (RegionPtr × Extraction)) (hcreated : F ∈ SM.CreatedFunctions) :
    ScopMapper.runOnFunction SM F Jit = (false, SM) := by
  simp [ScopMapper.runOnFunction, hcreated]

/-- C14 at the mapper that has extracted unit `100` from function `10`: run on
unit `100`, with a region the extractor would extract, it does nothing. -/
theorem C14_created_function_is_skipped_witness :
    (ScopMapper.runOnFunction ScopMapper.init 10
      [(1, Extraction.Extracted 100 "test_")]).2.CreatedFunctions = [100] ∧
    ScopMapper.runOnFunction
      (ScopMapper.runOnFunction ScopMapper.init 10 [(1, Extraction.Extracted 100 "test_")]).2
      100 [(1, Extraction.Extracted 101 "test_")] =
      (false,
        (ScopMapper.runOnFunction ScopMapper.init 10 [(1, Extraction.Extracted 100 "test_")]).2) :=
  ⟨by decide,
   C14_created_function_is_skipped
    (ScopMapper.runOnFunction ScopMapper.init 10 [(1, Extraction.Extracted 100 "test_")]).2
    100 [(1, Extraction.Extracted 101 "test_")] (by decide)⟩

/-! ## C15: a second run of the extractor -/

/-- C15, as stated, fails: after function `10` has had its jitable region `1`
extracted into unit `100`, a second run on function `10` in which the
extractor extracts region `1` again adds the unit `101`. -/
theorem C15_counterexample :
    (ScopMapper.runOnFunction ScopMapper.init 10
      [(1, Extraction.Extracted 100 "test_")]).2.CreatedFunctions = [100] ∧
    (ScopMapper.runOnFunction
      (ScopMapper.runOnFunction ScopMapper.init 10 [(1, Extraction.Extracted 100 "test_")]).2
      10 [(1, Extraction.Extracted 101 "test_")]).2.CreatedFunctions = [100, 101] := by
  decide

/-- C15, amended: after a first run, a run on a unit the mapper has created,
or a run in which the extractor extracts no jitable region, produces no new
unit: the mapper, `CreatedFunctions` included, is as after the first run. -/
theorem C15_second_run_without_extraction_adds_nothing (SM0 : ScopMapper) (F G : FunctionPtr)
    (Jit1 Jit2 : List (RegionPtr × Extraction))
    (hsecond : G ∈ (ScopMapper.runOnFunction SM0 F Jit1).2.CreatedFunctions ∨
      extractedUnits Jit2 = []) :
    (ScopMapper.runOnFunction (ScopMapper.runOnFunction SM0 F Jit1).2 G Jit2).2 =
      (ScopMapper.runOnFunction SM0 F Jit1).2 := by
  generalize (ScopMapper.runOnFunction SM0 F Jit1).2 = SM1 at hsecond
  rcases hsecond with h | h
  · simp [ScopMapper.runOnFunction, h]
  · unfold ScopMapper.runOnFunction
    split
    · rfl
    · exact extractLoop_of_nothing_extracted Jit2 0 SM1 h

/-- C15, amended, at a second run on function `10` in which the extractor
finds region `1` not eligible any more: `CreatedFunctions` stays `{100}`. -/
theorem C15_second_run_without_extraction_adds_nothing_witness :
    (ScopMapper.runOnFunction
      (ScopMapper.runOnFunction ScopMapper.init 10 [(1, Extraction.Extracted 100 "test_")]).2
      10 [(1, Extraction.NotEligible)]).2.CreatedFunctions = [100] :=
  (congrArg ScopMapper.CreatedFunctions
    (C15_second_run_without_extraction_adds_nothing ScopMapper.init 10 10
      [(1, Extraction.Extracted 100 "test_")] [(1, Extraction.NotEligible)]
      (Or.inr rfl))).trans (by decide)

/-! ## C16: a region that is not eligible is skipped -/

/-- C16: on a function the mapper did not create, `runOnFunction` runs to the
end and returns `true`; every region of the list whose extraction succeeds has
its unit in `CreatedFunctions` afterwards, wherever regions that are not
eligible stand in the list; and, the extracted functions being new ones,
`CreatedFunctions` grows by exactly the units of the successful extractions. -/
theorem C16_ineligible_region_is_skipped (SM : ScopMapper) (F : FunctionPtr)
    (Jit : List (RegionPtr × Extraction))
    (hF : F ∉ SM.CreatedFunctions)
    (hnew : (SM.CreatedFunctions ++ (extractedUnits Jit).map Prod.fst).Nodup) :
    (ScopMapper.runOnFunction SM F Jit).1 = true ∧
    (∀ (R : RegionPtr) (ExtractedF : FunctionPtr) (Name : String),
      (R, Extraction.Extracted ExtractedF Name) ∈ Jit →
      ExtractedF ∈ (ScopMapper.runOnFunction SM F Jit).2.CreatedFunctions) ∧
    (ScopMapper.runOnFunction SM F Jit).2.CreatedFunctions =
      SM.CreatedFunctions ++ (extractedUnits Jit).map Prod.fst ∧
    (ScopMapper.runOnFunction SM F Jit).2.CreatedFunctions.length =
      SM.CreatedFunctions.length + (extractedUnits Jit).length := by
  have hrun : ScopMapper.runOnFunction SM F Jit = (true, ScopMapper.extractLoop Jit 0 SM) := by
    simp [ScopMapper.runOnFunction, hF]
  rw [hrun]
  refine ⟨rfl, ?_, extractLoop_created_fresh Jit 0 SM hnew, ?_⟩
  · intro R f n hmem
    apply (extractLoop_created_mem Jit 0 SM f).2
    right
    exact List.mem_map.2 ⟨(f, n), mem_extractedUnits Jit R f n hmem, rfl⟩
  · show (ScopMapper.extractLoop Jit 0 SM).CreatedFunctions.length = _
    rw [extractLoop_created_fresh Jit 0 SM hnew]
    simp

/-- C16 at the regions `1` (extracted into `100`), `2` (not eligible), `3`
(extracted into `101`) and `4` (extraction fails): both units are created. -/
theorem C16_ineligible_region_is_skipped_witness :
    (ScopMapper.runOnFunction ScopMapper.init 10
      [(1, Extraction.Extracted 100 "test_a"), (2, Extraction.NotEligible),
       (3, Extraction.Extracted 101 "test_b"), (4, Extraction.Failed)]).1 = true ∧
    (ScopMapper.runOnFunction ScopMapper.init 10
      [(1, Extraction.Extracted 100 "test_a"), (2, Extraction.NotEligible),
       (3, Extraction.Extracted 101 "test_b"), (4, Extraction.Failed)]).2.CreatedFunctions =
      [100, 101] :=
  ⟨(C16_ineligible_region_is_skipped ScopMapper.init 10
      [(1, Extraction.Extracted 100 "test_a"), (2, Extraction.NotEligible),
       (3, Extraction.Extracted 101 "test_b"), (4, Extraction.Failed)]
      (by decide) (by decide)).1,
   by decide⟩

/-! ## C17: the names of the extracted units -/

/-- C17, as stated, fails: two invocations, on the functions `10` and `11`,
that each extract one unit for which the extractor provides the name `f_`
build the same name `f_.scop0` for both units, since the ordinal starts at `0`
in every invocation.  So whatever names the units `100` and `101` carry in the
end, they cannot both carry the name built from their base name and ordinal
and be named differently. -/
theorem C17_counterexample :
    (ScopMapper.runOnFunction
      (ScopMapper.runOnFunction ScopMapper.init 10 [(1, Extraction.Extracted 100 "f_")]).2
      11 [(2, Extraction.Extracted 101 "f_")]).2.SetNameCalls =
      [(100, "f_" ++ ".scop" ++ toString 0), (101, "f_" ++ ".scop" ++ toString 0)] ∧
    ¬ ∃ nameOf : FunctionPtr → String,
      (∀ u ∈ (ScopMapper.runOnFunction
          (ScopMapper.runOnFunction ScopMapper.init 10 [(1, Extraction.Extracted 100 "f_")]).2
          11 [(2, Extraction.Extracted 101 "f_")]).2.SetNameCalls, nameOf u.1 = u.2) ∧
      nameOf 100 ≠ nameOf 101 := by
  have hcalls : (ScopMapper.runOnFunction
      (ScopMapper.runOnFunction ScopMapper.init 10 [(1, Extraction.Extracted 100 "f_")]).2
      11 [(2, Extraction.Extracted 101 "f_")]).2.SetNameCalls =
      [(100, "f_" ++ ".scop" ++ toString 0), (101, "f_" ++ ".scop" ++ toString 0)] := by
    decide
  refine ⟨hcalls, ?_⟩
  rintro ⟨nameOf, hnamed, hne⟩
  rw [hcalls] at hnamed
  apply hne
  rw [hnamed (100, _) (List.mem_cons_self _ _),
    hnamed (101, _) (List.mem_cons_of_mem _ (List.mem_cons_self _ _))]

/-- C17, amended: within one `runOnFunction` call that is not skipped, the
names the mapper builds and passes to `setName` for the units of the successful
extractions are, in order, the names the extractor provides with `.scop` and
the ordinals `0, 1, 2, ...` appended (a region that is not extracted uses up no
ordinal), and the names built in the call are pairwise distinct.  Across
invocations the ordinal starts again at `0`. -/
theorem C17_names_distinct_within_one_call (SM : ScopMapper) (F : FunctionPtr)
    (Jit : List (RegionPtr × Extraction)) (hF : F ∉ SM.CreatedFunctions) :
    (ScopMapper.runOnFunction SM F Jit).2.SetNameCalls =
      SM.SetNameCalls ++ (extractedUnits Jit).enum.map
        (fun p => (p.2.1, p.2.2 ++ ".scop" ++ toString p.1)) ∧
    (((extractedUnits Jit).enum.map
        (fun p => (p.2.1, p.2.2 ++ ".scop" ++ toString p.1))).map Prod.snd).Nodup ∧
    ((extractedUnits Jit).enum.map
        (fun p => (p.2.1, p.2.2 ++ ".scop" ++ toString p.1))).map
        (fun u => ordinalSuffix u.2) = List.range (extractedUnits Jit).length := by
  have hrun : ScopMapper.runOnFunction SM F Jit = (true, ScopMapper.extractLoop Jit 0 SM) := by
    simp [ScopMapper.runOnFunction, hF]
  have henum := scopNames_eq_enum (extractedUnits Jit) 0
  rw [hrun]
  refine ⟨?_, ?_, ?_⟩
  · show (ScopMapper.extractLoop Jit 0 SM).SetNameCalls = _
    rw [extractLoop_names, henum]
    rfl
  · have h := scopNames_nodup (extractedUnits Jit) 0
    rw [henum] at h
    exact h
  · have h := scopNames_ordinals (extractedUnits Jit) 0
    rw [henum, ← List.range_eq_range'] at h
    exact h

/-- C17, amended, at one call with the regions `1` (extracted, name `f_`), `2`
(not eligible) and `3` (extracted, name `f_` again): the names built are
`f_.scop0` and `f_.scop1`. -/
theorem C17_names_distinct_within_one_call_witness :
    (ScopMapper.runOnFunction ScopMapper.init 10
      [(1, Extraction.Extracted 100 "f_"), (2, Extraction.NotEligible),
       (3, Extraction.Extracted 101 "f_")]).2.SetNameCalls =
      [(100, "f_.scop0"), (101, "f_.scop1")] :=
  (C17_names_distinct_within_one_call ScopMapper.init 10
    [(1, Extraction.Extracted 100 "f_"), (2, Extraction.NotEligible),
     (3, Extraction.Extracted 101 "f_")] (by decide)).1.trans (by decide)

/-! ## Properties of the instrumentation -/

theorem execInstructions_append (ArgValues : Nat → Word) (m : Machine)
    (Is Js : List Instruction) :
    execInstructions ArgValues m (Is ++ Js) =
      execInstructions ArgValues (execInstructions ArgValues m Is) Js := by
  simp [execInstructions, List.foldl_append]

theorem execInstructions_storeParams (ArgValues : Nat → Word) (p : Nat) :
    ∀ (Args : List Argument) (i : Nat) (m : Machine),
      m.Regs Operand.Params = Word.Ptr p → p + i + Args.length ≤ m.SP →
      i + Args.length ≤ 2 ^ 32 →
      (execInstructions ArgValues m (storeParams Args i)).Regs Operand.Params = Word.Ptr p ∧
      (execInstructions ArgValues m (storeParams Args i)).SP = m.SP + Args.length ∧
      (execInstructions ArgValues m (storeParams Args i)).Calls = m.Calls ∧
      (∀ j, j < Args.length →
        (execInstructions ArgValues m (storeParams Args i)).Mem (p + i + j) =
          Word.Ptr (m.SP + j) ∧
        (execInstructions ArgValues m (storeParams Args i)).Mem (m.SP + j) =
          ArgValues (i + j)) ∧
      (∀ a, (a < p + i ∨ p + i + Args.length ≤ a) → (a < m.SP ∨ m.SP + Args.length ≤ a) →
        (execInstructions ArgValues m (storeParams Args i)).Mem a = m.Mem a) := by
  intro Args
  induction Args with
  | nil =>
    intro i m hp _ _
    refine ⟨hp, rfl, rfl, ?_, fun a _ _ => rfl⟩
    intro j hj
    simp at hj
  | cons A rest ih =>
    intro i m hp hsp hi
    simp only [List.length_cons] at hsp hi ⊢
    have himod : i % 4294967296 = i := Nat.mod_eq_of_lt (by omega)
    rw [storeParams, execInstructions_append]
    generalize hm1 : execInstructions ArgValues m
      [Instruction.Alloca (Operand.Slot i) A.Ty 1,
       Instruction.Store (Operand.Arg i) (Operand.Slot i) 4,
       Instruction.BitCast (Operand.Slot8 i) (Operand.Slot i),
       Instruction.GEP (Operand.Dest i) Operand.Params (i % 2 ^ 32),
       Instruction.Store (Operand.Slot8 i) (Operand.Dest i) 8] = m1
    have h1P : m1.Regs Operand.Params = Word.Ptr p := by
      rw [← hm1]
      simp [execInstructions, execInstruction, evalOperand, Function.update, hp]
    have h1SP : m1.SP = m.SP + 1 := by
      rw [← hm1]
      simp [execInstructions, execInstruction, evalOperand, Function.update, hp]
    have h1C : m1.Calls = m.Calls := by
      rw [← hm1]
      simp [execInstructions, execInstruction, evalOperand, Function.update, hp]
    have h1M : m1.Mem = Function.update (Function.update m.Mem m.SP (ArgValues i)) (p + i)
        (Word.Ptr m.SP) := by
      rw [← hm1]
      simp [execInstructions, execInstruction, evalOperand, Function.update, hp, himod]
    obtain ⟨r1, r2, r3, r4, r5⟩ := ih (i + 1) m1 h1P (by omega) (by omega)
    refine ⟨r1, by omega, by rw [r3, h1C], ?_, ?_⟩
    · intro j hj
      cases j with
      | zero =>
        have hne : m.SP ≠ p + i := by omega
        constructor
        · rw [r5 (p + i + 0) (by omega) (by omega), h1M]
          simp [Function.update]
        · rw [r5 (m.SP + 0) (by omega) (by omega), h1M]
          simp [Function.update, hne]
      | succ j =>
        obtain ⟨q1, q2⟩ := r4 j (by omega)
        constructor
        · have e1 : p + i + (j + 1) = p + (i + 1) + j := by omega
          rw [e1, q1, h1SP]
          congr 1
          omega
        · have e1 : m.SP + (j + 1) = m1.SP + j := by omega
          rw [e1, q2]
          congr 1
          omega
    · intro a ha1 ha2
      rw [r5 a (by omega) (by omega), h1M]
      have h1 : a ≠ p + i := by omega
      have h2 : a ≠ m.SP := by omega
      simp [Function.update, h1, h2]

theorem execInstructions_instrumentation (ArgValues : Nat → Word) (m : Machine)
    (F : ModuleFunction) (hargs : F.Args.length < 2 ^ 32) :
    (execInstructions ArgValues m (instrumentation F)).Calls =
      m.Calls ++ [(cbName, [Word.Str F.Name, Word.Int F.Args.length, Word.Ptr m.SP])] ∧
    (∀ i, i < F.Args.length →
      (execInstructions ArgValues m (instrumentation F)).Mem (m.SP + i) =
        Word.Ptr (m.SP + F.Args.length + i) ∧
      (execInstructions ArgValues m (instrumentation F)).Mem (m.SP + F.Args.length + i) =
        ArgValues i) := by
  have hmod : F.Args.length % 2 ^ 32 = F.Args.length := Nat.mod_eq_of_lt hargs
  unfold instrumentation
  rw [execInstructions_append, execInstructions_append, hmod]
  generalize hm1 : execInstructions ArgValues m
    [Instruction.Alloca Operand.Params IRType.Pointer F.Args.length] = m1
  have h1P : m1.Regs Operand.Params = Word.Ptr m.SP := by
    rw [← hm1]
    simp [execInstructions, execInstruction, Function.update]
  have h1SP : m1.SP = m.SP + F.Args.length := by
    rw [← hm1]
    simp [execInstructions, execInstruction]
  have h1C : m1.Calls = m.Calls := by
    rw [← hm1]
    simp [execInstructions, execInstruction]
  obtain ⟨r1, _, r3, r4, _⟩ :=
    execInstructions_storeParams ArgValues m.SP F.Args 0 m1 h1P (by omega) (by omega)
  generalize execInstructions ArgValues m1 (storeParams F.Args 0) = m2 at r1 r3 r4
  constructor
  · simp [execInstructions, execInstruction, evalOperand, r1, r3, h1C]
  · intro i hi
    obtain ⟨q1, q2⟩ := r4 i hi
    have hmem : (execInstructions ArgValues m2
        [Instruction.Call cbName
          [Operand.GlobalString F.Name, Operand.ConstInt F.Args.length, Operand.Params]]).Mem =
        m2.Mem := by
      simp [execInstructions, execInstruction]
    rw [hmem]
    constructor
    · have := q1
      simp only [Nat.add_zero] at this
      rw [this, h1SP]
    · have := q2
      rw [h1SP] at this
      simpa using this

/-! ## C18: the prologue the instrumentor inserts -/

/-- C18: in every extracted module, `instrumentScops` leaves a declaration as
it is and gives a definition `F` with `n` formals, at the first insertion point
of its entry block, the instructions `instrumentation F`; in an entry block
that begins with neither a PHI node nor a landing pad (as the entry block of a
function does) they stand before every original instruction.  Executed, they
build an array of `n` cells whose cell `i` holds the address of a cell that
holds the value of the formal `i`, and then call the callback exactly once,
with the name of the function, `n`, and the address of the array. -/
theorem C18_instrumentScops_inserts_prologue (Mods : List Module) (NewAddr : Nat → FunctionPtr)
    (k : Nat) (ScopM : Module) (F : ModuleFunction) (ArgValues : Nat → Word) (m : Machine)
    (hmod : (k, ScopM) ∈ Mods.enum) (hF : F ∈ ScopM)
    (hargs : F.Args.length < 2 ^ 32) (hentry : firstInsertionPt F.Entry = 0) :
    instrumentModule ScopM (NewAddr k) ∈ instrumentScops Mods NewAddr ∧
    instrumentFunction F ∈ instrumentModule ScopM (NewAddr k) ∧
    (F.isDeclaration = true → instrumentFunction F = F) ∧
    (F.isDeclaration = false →
      (instrumentFunction F).Entry = instrumentation F ++ F.Entry ∧
      (instrumentFunction F).Args = F.Args ∧
      (instrumentFunction F).Name = F.Name ∧
      (execInstructions ArgValues m (instrumentation F)).Calls =
        m.Calls ++ [(cbName, [Word.Str F.Name, Word.Int F.Args.length, Word.Ptr m.SP])] ∧
      (∀ i, i < F.Args.length →
        (execInstructions ArgValues m (instrumentation F)).Mem (m.SP + i) =
          Word.Ptr (m.SP + F.Args.length + i) ∧
        (execInstructions ArgValues m (instrumentation F)).Mem (m.SP + F.Args.length + i) =
          ArgValues i)) := by
  refine ⟨?_, ?_, ?_, ?_⟩
  · unfold instrumentScops
    exact List.mem_map.2 ⟨(k, ScopM), hmod, rfl⟩
  · unfold instrumentModule
    apply List.mem_map.2
    refine ⟨F, ?_, rfl⟩
    unfold getOrInsertCallback
    split
    · exact hF
    · exact List.mem_append_left _ hF
  · intro hdecl
    simp [instrumentFunction, hdecl]
  · intro hdef
    have hsem := execInstructions_instrumentation ArgValues m F hargs
    refine ⟨?_, ?_, ?_, hsem.1, hsem.2⟩
    · simp [instrumentFunction, hdef, hentry]
    · simp [instrumentFunction, hdef]
    · simp [instrumentFunction, hdef]

/-- C18 at the module that holds the unit `mixed(i32 %n, double %x, i64 %m)`
with two original instructions: the prologue comes first, and run with the
arguments `7, 8, 9` on a stack that starts at cell `100` it calls
`polli.enter.runtime("mixed", 3, 100)`. -/
theorem C18_instrumentScops_inserts_prologue_witness :
    (instrumentFunction unitWithBody).Entry =
      instrumentation unitWithBody ++ [Instruction.Original 0, Instruction.Original 1] ∧
    (execInstructions (fun i => Word.Int (7 + i)) freshMachine
      (instrumentation unitWithBody)).Calls =
      [("polli.enter.runtime", [Word.Str "mixed", Word.Int 3, Word.Ptr 100])] ∧
    (execInstructions (fun i => Word.Int (7 + i)) freshMachine
      (instrumentation unitWithBody)).Mem 102 = Word.Ptr 105 ∧
    (execInstructions (fun i => Word.Int (7 + i)) freshMachine
      (instrumentation unitWithBody)).Mem 105 = Word.Int 9 :=
  ⟨((C18_instrumentScops_inserts_prologue [[unitWithBody]] (fun _ => 200) 0 [unitWithBody]
      unitWithBody (fun i => Word.Int (7 + i)) freshMachine
      (by simp [List.enum, List.enumFrom]) (List.mem_cons_self _ _) (by decide) (by decide)).2.2.2
      rfl).1,
   by decide, by decide, by decide⟩

/-! ## C19: the program image is a singleton -/

theorem PolyJIT.GetAll_of_instance (S : PolyJITStatics) (I : Nat) (h : S.Instance = some I)
    (Calls : List (EnginePtr × ModulePtr)) :
    PolyJIT.GetAll S Calls = (List.replicate Calls.length I, S) := by
  induction Calls with
  | nil => rfl
  | cons c rest ih =>
    obtain ⟨EE, M⟩ := c
    have hget : PolyJIT.Get S EE M = (I, S) := by simp [PolyJIT.Get, h]
    simp [PolyJIT.GetAll, hget, ih, List.replicate_succ]

/-- C19: from program start, the first `PolyJIT::Get(EE, M)` constructs one
object, with `EE` and `M`, and makes it the instance; every later call, with
whatever engine and module, returns the pointer the first call returned,
constructs nothing and leaves `Instance` as it is. -/
theorem C19_first_created_instance_wins (EE : EnginePtr) (M : ModulePtr)
    (Calls : List (EnginePtr × ModulePtr)) :
    (PolyJIT.Get PolyJITStatics.init EE M).2.Objects = [{ EE := EE, M := M }] ∧
    (PolyJIT.Get PolyJITStatics.init EE M).2.Instance =
      some (PolyJIT.Get PolyJITStatics.init EE M).1 ∧
    (PolyJIT.GetAll (PolyJIT.Get PolyJITStatics.init EE M).2 Calls).1 =
      List.replicate Calls.length (PolyJIT.Get PolyJITStatics.init EE M).1 ∧
    (PolyJIT.GetAll (PolyJIT.Get PolyJITStatics.init EE M).2 Calls).2 =
      (PolyJIT.Get PolyJITStatics.init EE M).2 := by
  have h := PolyJIT.GetAll_of_instance (PolyJIT.Get PolyJITStatics.init EE M).2
    (PolyJIT.Get PolyJITStatics.init EE M).1 rfl Calls
  rw [h]
  exact ⟨rfl, rfl, rfl, rfl⟩

/-! ## C20: the callback for a name that is not in the module -/

/-- C20: when the `PolyJIT` instance has a module and this module has no
function named `fName`, `pjit_callback` ends in `llvm_unreachable`; it has read
no parameter slot and the dispatcher with its variant caches is unchanged. -/
theorem C20_unknown_unit_is_unreachable (JIT : PolyJITStatics) (Disp : FunctionDispatcher)
    (Modules : ModulePtr → Option Module) (fName : String) (paramc : Nat) (params : Nat → Nat)
    (M : Module)
    (hmodule : ((PolyJIT.Get JIT 0 0).2.Objects.get? (PolyJIT.Get JIT 0 0).1).bind
      (fun Obj => Modules Obj.M) = some M)
    (hname : ∀ F ∈ M, F.Name ≠ fName) :
    (pjit_callback JIT Disp Modules fName paramc params).Outcome = CallbackOutcome.Unreachable ∧
    (pjit_callback JIT Disp Modules fName paramc params).Reads = [] ∧
    (pjit_callback JIT Disp Modules fName paramc params).Disp = Disp := by
  have hnone : Module.getFunction M fName = none := by
    unfold Module.getFunction
    rw [List.find?_eq_none]
    intro F hF
    simpa using hname F hF
  unfold pjit_callback
  simp only [hmodule, hnone, and_self]

/-- C20 at an instance constructed with the module at address `7`, which holds
the unit `test` only, and the name `other`; with the name `test` the same call
reads slot `0` and dispatches. -/
theorem C20_unknown_unit_is_unreachable_witness :
    (pjit_callback (PolyJIT.Get PolyJITStatics.init 1 7).2 [] modulesAt7 "other" 1
      slotsFrom10).Outcome = CallbackOutcome.Unreachable ∧
    (pjit_callback (PolyJIT.Get PolyJITStatics.init 1 7).2 [] modulesAt7 "other" 1
      slotsFrom10).Reads = [] ∧
    (pjit_callback (PolyJIT.Get PolyJITStatics.init 1 7).2 [] modulesAt7 "test" 1
      slotsFrom10).Outcome = CallbackOutcome.Dispatched 0 ∧
    (pjit_callback (PolyJIT.Get PolyJITStatics.init 1 7).2 [] modulesAt7 "test" 1
      slotsFrom10).Reads = [0, 0] :=
  ⟨(C20_unknown_unit_is_unreachable (PolyJIT.Get PolyJITStatics.init 1 7).2 [] modulesAt7
      "other" 1 slotsFrom10 [unitTest] rfl (by decide)).1,
   by decide, by decide, by decide⟩

/-! ## C24: functions the detector skips -/

/-- C24: when the detector is disabled, or the function is a declaration, or
it carries the attribute `polyjit-jit-candidate`, `runOnFunction` returns
`false` and leaves the detector, with `JitableScops`, `AccumulatedScops` and
`RequiredParams`, unchanged. -/
theorem C24_skipped_function_changes_nothing (S : JitScopDetection) (F : Function)
    (A : Analyses)
    (hskip : S.Enabled = false ∨ F.isDeclaration = true ∨
      Function.hasFnAttribute F "polyjit-jit-candidate" = true) :
    runOnFunction S F A = (false, S) := by
  unfold runOnFunction
  rcases hskip with h | h | h
  · simp [h]
  · simp [h]
  · simp [h]

/-- C24 at a function that carries the attribute `polyjit-jit-candidate` and
has a region the detector would otherwise accept. -/
theorem C24_skipped_function_changes_nothing_witness :
    (runOnFunction JitScopDetection.empty plainFunction
      { Rejects := [(some innerRegion, [fixableAccess [7]])],
        Scops := [4], TopLevel := .mk 0 [innerRegion] }).2.JitableScops = [2] ∧
    runOnFunction JitScopDetection.empty
      { Name := "test.scop0", isDeclaration := false,
        FnAttributes := ["polyjit-jit-candidate"] }
      { Rejects := [(some innerRegion, [fixableAccess [7]])],
        Scops := [4], TopLevel := .mk 0 [innerRegion] } =
      (false, JitScopDetection.empty) :=
  ⟨by decide,
   C24_skipped_function_changes_nothing JitScopDetection.empty
    { Name := "test.scop0", isDeclaration := false, FnAttributes := ["polyjit-jit-candidate"] }
    { Rejects := [(some innerRegion, [fixableAccess [7]])],
      Scops := [4], TopLevel := .mk 0 [innerRegion] }
    (Or.inr (Or.inr (by decide)))⟩

/-! ## C25: the validity flag of a region -/

/-- C25: the flag `RegionIsValid` that `runOnFunction` computes for a reason
list is true exactly when the list is not empty and every reason in it is
accepted by at least one of the four checkers; for the empty list it is false,
and the entry of a region with an empty list records no parameters. -/
theorem C25_region_valid_iff_all_reasons_fixable (R : Region) (Log : RejectLog)
    (Top : Region) (S : JitScopDetection) :
    ((checkLog (Region.id R) Log).1 = true ↔
      Log ≠ [] ∧ ∀ Reason ∈ Log, checkerAccepts Reason) ∧
    (checkLog (Region.id R) []).1 = false ∧
    (processReject Top S (some R, [])).RequiredParams = S.RequiredParams := by
  refine ⟨checkLog_fst _ _, rfl, ?_⟩
  rw [processReject_invalid Top S (some R, []) R rfl rfl]

/-! ## C28: the hash of a cache key -/

/-- C28: `std::hash<CacheKey>` is the exclusive or of the address of the unit
and `ValueHash`, and keys that `operator==` finds equal have equal hashes. -/
theorem C28_hash_consistent_with_equality (a b : CacheKey) :
    CacheKey.hash a = Nat.xor a.IR a.ValueHash ∧
    (CacheKey.eq a b = true → CacheKey.hash a = CacheKey.hash b) := by
  refine ⟨rfl, ?_⟩
  intro h
  simp only [CacheKey.eq, Bool.and_eq_true, decide_eq_true_eq] at h
  simp only [CacheKey.hash, h.1, h.2]

/-! ## C26: the count `eraseAllChildren` returns -/

mutual
theorem eraseAllChildren_count : ∀ (R : Region) (Regs : ScopSet),
    (eraseAllChildren Regs R).1 + (eraseAllChildren Regs R).2.length = Regs.length
  | .mk _ subs, Regs => by
    rw [eraseAllChildren]
    have h := eraseAllChildrenLoop_count subs Regs 0
    omega
theorem eraseAllChildrenLoop_count : ∀ (subs : List Region) (Regs : ScopSet) (Count : Nat),
    (eraseAllChildrenLoop Regs Count subs).1 + (eraseAllChildrenLoop Regs Count subs).2.length =
      Count + Regs.length
  | [], Regs, Count => by
    rw [eraseAllChildrenLoop]
  | S :: rest, Regs, Count => by
    rw [eraseAllChildrenLoop]
    split
    next hS =>
      have hS' : Region.id S ∈ Regs := by simpa [ScopSet.count] using hS
      have h := eraseAllChildrenLoop_count rest (ScopSet.remove Regs (Region.id S)) (Count + 1)
      have hlen : (ScopSet.remove Regs (Region.id S)).length = Regs.length - 1 :=
        List.length_erase_of_mem hS'
      have hpos : 0 < Regs.length := List.length_pos_of_mem hS'
      omega
    next hS =>
      have h0 := eraseAllChildren_count S Regs
      have h := eraseAllChildrenLoop_count rest (eraseAllChildren Regs S).2
        (Count + (eraseAllChildren Regs S).1)
      simp only at h ⊢
      omega
end

mutual
theorem eraseAllChildren_keeps : ∀ (R : Region) (Regs : ScopSet) (x : RegionPtr),
    x ∈ Regs → x ∉ Region.descendants R → x ∈ (eraseAllChildren Regs R).2
  | .mk i subs, Regs, x => by
    intro hx hnot
    rw [eraseAllChildren]
    rw [descendants_mk] at hnot
    exact eraseAllChildrenLoop_keeps subs Regs 0 x hx hnot
theorem eraseAllChildrenLoop_keeps : ∀ (subs : List Region) (Regs : ScopSet) (Count : Nat)
    (x : RegionPtr), x ∈ Regs → x ∉ (subregionsOfList subs).map Region.id →
    x ∈ (eraseAllChildrenLoop Regs Count subs).2
  | [], Regs, Count, x => by
    intro hx _
    rw [eraseAllChildrenLoop]
    exact hx
  | S :: rest, Regs, Count, x => by
    intro hx hnot
    rw [subregionsOfList_cons] at hnot
    simp only [List.map_cons, List.map_append, List.mem_cons, List.mem_append, not_or] at hnot
    obtain ⟨hxS, hxSub, hxRest⟩ := hnot
    rw [eraseAllChildrenLoop]
    split
    · apply eraseAllChildrenLoop_keeps rest _ _ x _ hxRest
      exact (List.mem_erase_of_ne hxS).2 hx
    · apply eraseAllChildrenLoop_keeps rest _ _ x _ hxRest
      exact eraseAllChildren_keeps S Regs x hx hxSub
end

/-- C26: `eraseAllChildren(Regs, R)` returns the number of regions it removed,
the size of `Regs` before minus the size after; a region it removed is nested
inside `R`; a region of `Regs` that is not nested inside `R` stays, and so
does `R` itself, which is not nested inside itself. -/
theorem C26_eraseAllChildren_count_and_frame (Regs : ScopSet) (R : Region) :
    (eraseAllChildren Regs R).1 = Regs.length - (eraseAllChildren Regs R).2.length ∧
    (eraseAllChildren Regs R).2.length ≤ Regs.length ∧
    (∀ x ∈ Regs, x ∉ (eraseAllChildren Regs R).2 → x ∈ Region.descendants R) ∧
    (∀ x ∈ Regs, x ∉ Region.descendants R → x ∈ (eraseAllChildren Regs R).2) ∧
    (Region.id R ∉ Region.descendants R → Region.id R ∈ Regs →
      Region.id R ∈ (eraseAllChildren Regs R).2) := by
  have hcount := eraseAllChildren_count R Regs
  refine ⟨by omega, by omega, ?_, ?_, ?_⟩
  · intro x hx hgone
    by_contra hnot
    exact hgone (eraseAllChildren_keeps R Regs x hx hnot)
  · intro x hx hnot
    exact eraseAllChildren_keeps R Regs x hx hnot
  · intro hself hR
    exact eraseAllChildren_keeps R Regs _ hR hself

/-! ## C30: what `isInvalidRegion` computes -/

theorem isValidRec_iff_firstChildChain : ∀ (CurR : Region) (R : RegionPtr),
    isValidRec CurR R = true ↔ R ∈ firstChildChain CurR
  | .mk _ [], R => by
    simp [isValidRec, firstChildChain]
  | .mk _ (Sub :: _), R => by
    have ih := isValidRec_iff_firstChildChain Sub R
    rw [isValidRec, firstChildChain]
    by_cases h : Region.id Sub = R
    · simp [h]
    · have h' : ¬ R = Region.id Sub := fun e => h e.symm
      simp [h, h', ih]

/-- C30: `isInvalidRegion(F, R)` is the same whatever `JitableScops` holds; it
is `true` when `R` has no parent and the negation of `isValidRec(TopLevel, R)`
otherwise; and `isValidRec`, a total function on region trees, is `true`
exactly for the regions reached from `TopLevel` by descending into the first
child only. -/
theorem C30_isInvalidRegion_ignores_jitable_set (TopLevel : Region) (J1 J2 : ScopSet)
    (R : RegionPtr) :
    isInvalidRegion TopLevel J1 R = isInvalidRegion TopLevel J2 R ∧
    (getParent TopLevel R = none → isInvalidRegion TopLevel J1 R = true) ∧
    (getParent TopLevel R ≠ none →
      isInvalidRegion TopLevel J1 R = !isValidRec TopLevel R) ∧
    (isValidRec TopLevel R = true ↔ R ∈ firstChildChain TopLevel) := by
  refine ⟨?_, ?_, ?_, isValidRec_iff_firstChildChain TopLevel R⟩
  · unfold isInvalidRegion
    cases getParent TopLevel R <;> rfl
  · intro h
    simp [isInvalidRegion, h]
  · intro h
    unfold isInvalidRegion
    cases hp : getParent TopLevel R with
    | none => exact absurd hp h
    | some P => rfl

/-! ## C27: a specialization value whose name matches no formal -/

/-- C27, the code at the failing input: for the unit `test(i32 %n)` and a
value named `zz`, `getArgument` returns the end of the formals of the source,
which is not `To->arg_end()`; `Apply` does not skip the value but goes on to
dereference the end iterator, and the value `%n` that follows is never
applied.  Without the value `zz` the use of `%n` is replaced. -/
theorem C27_unmatched_name_is_not_skipped :
    getArgument unitTest "zz" = unitTest.Args.length ∧
    Apply [{ Ty := IRType.Integer 32, Name := "zz", Val := some ⟨32, 5⟩ },
           { Ty := IRType.Integer 32, Name := "n", Val := some ⟨32, 6⟩ }]
      unitTest variantTarget (CreateUnpackParamsO2 unitTest) [Value.Load 0] = none ∧
    Apply [{ Ty := IRType.Integer 32, Name := "n", Val := some ⟨32, 6⟩ }]
      unitTest variantTarget (CreateUnpackParamsO2 unitTest) [Value.Load 0] =
      some [Value.Constant ⟨32, 6⟩] := by
  decide

/-! ## Properties of the report -/

/-- C29, the code at the failing input: in the tree `0 > 2` with the log
`2 -> [unfixable]`, `runOnFunction` started on the empty detector leaves region
`2` in `JitableScops` without an entry in `RequiredParams`, and `print` then
fails in `RequiredParams.at`. -/
theorem C29_jitable_region_without_required_params :
    ¬ hasRequiredParams (runOnFunction JitScopDetection.empty plainFunction
      { Rejects := [(some innerRegion, [unfixable])], Scops := [],
        TopLevel := .mk 0 [innerRegion] }).2 ∧
    2 ∈ (runOnFunction JitScopDetection.empty plainFunction
      { Rejects := [(some innerRegion, [unfixable])], Scops := [],
        TopLevel := .mk 0 [innerRegion] }).2.JitableScops ∧
    StdMap.find (runOnFunction JitScopDetection.empty plainFunction
      { Rejects := [(some innerRegion, [unfixable])], Scops := [],
        TopLevel := .mk 0 [innerRegion] }).2.RequiredParams 2 = none ∧
    print (runOnFunction JitScopDetection.empty plainFunction
        { Rejects := [(some innerRegion, [unfixable])], Scops := [],
          TopLevel := .mk 0 [innerRegion] }).2
      [(some innerRegion, [unfixable])] namesOfTest1 scevOfTest1 = none := by
  decide

/-! ## C22: the specialized variant computes what the unit computes -/

theorem variantOfTest_eq (raw : Nat) :
    variantOfTest raw =
      some [Value.Constant (ConstantInt.get 32 (raw % 2 ^ 64)),
            Value.Constant (ConstantInt.get 32 (raw % 2 ^ 64))] := by
  rfl

theorem toSigned_get32 (raw : Nat) :
    toSigned 32 (ConstantInt.get 32 (raw % 2 ^ 64)).Value = toSigned 32 raw := by
  have h : raw % 2 ^ 64 % 2 ^ 32 % 2 ^ 32 = raw % 2 ^ 32 := by omega
  simp only [toSigned, ConstantInt.get, h]

/-- C22: for every value `n` of the formal, given by the bit pattern `raw` in
its slot, the variant of `test` that `Apply` specializes for it exists and,
run on any array, gives what the unit gives when run with `n`, whatever values
the formals of the variant have; on the array of ten zeros the call with
`n = 1` gives `1 1 1 1 1 0 0 0 0 0` and the call with `n = 2` after it gives
`3 1 3 1 5 0 3 0 7 0`, for the unit and for its variants alike. -/
theorem C22_variant_agrees_with_unit (raw : Nat) (A : List Int) (Formals : Nat → Int) :
    (∃ Uses, variantOfTest raw = some Uses ∧
      runTest Uses Formals A = runTest usesOfTest (fun _ => toSigned 32 raw) A) ∧
    runTest usesOfTest (fun _ => 1) zeroArray = some [1, 1, 1, 1, 1, 0, 0, 0, 0, 0] ∧
    runTest usesOfTest (fun _ => 2) [1, 1, 1, 1, 1, 0, 0, 0, 0, 0] =
      some [3, 1, 3, 1, 5, 0, 3, 0, 7, 0] ∧
    (variantOfTest 1).bind (fun Uses => runTest Uses Formals zeroArray) =
      some [1, 1, 1, 1, 1, 0, 0, 0, 0, 0] ∧
    (variantOfTest 2).bind (fun Uses => runTest Uses Formals [1, 1, 1, 1, 1, 0, 0, 0, 0, 0]) =
      some [3, 1, 3, 1, 5, 0, 3, 0, 7, 0] := by
  refine ⟨⟨_, variantOfTest_eq raw, ?_⟩, by decide, by decide, ?_, ?_⟩
  · have hw : (ConstantInt.get 32 (raw % 2 ^ 64)).BitWidth = 32 := rfl
    simp only [runTest, usesOfTest, evalValue, hw, toSigned_get32]
  · rw [variantOfTest_eq]
    simp only [Option.some_bind, runTest, evalValue]
    decide
  · rw [variantOfTest_eq]
    simp only [Option.some_bind, runTest, evalValue]
    decide

end polli
